import Mathlib

/-!
Shallow embedding of the Skill-Gobang engine (a 15×15 five-in-a-row game with
three limited-use skills) and proofs about it.

Conventions of the embedding:

* A JS board `board[x][y]` (a square array of arrays of the numbers
  0 = empty, 1 = human, 2 = AI) is modelled as a `Board`: a size together with
  a total cell function `Nat → Nat → Nat`.  Coordinates supplied from the
  outside (e.g. to `BoardManager.placePiece`) are modelled as `Int`, since JS
  callers may pass negative or too-large values; every source function guards
  accesses with a bounds check before indexing, and the embedding mirrors
  those guards.
* JS mutation is modelled by explicit state passing: a mutating method
  becomes a function returning the new value together with its JS return
  value.
* The unbounded `while` walks of `WinChecker.checkDirection` are modelled
  with fuel equal to the board size; a run of same-player stones along a
  direction cannot leave the board, so the fuel is never exhausted (this is
  proved below for the four scan directions, `countRun_lt_fuel`).
* `Utils.randomSelect(array, count)` shuffles a copy of the array and takes
  the first `min count array.length` elements.  Randomness is modelled by
  passing the shuffled list as an explicit argument; theorems quantify over
  every list that is a permutation of the source array, which covers every
  outcome the shuffle can produce.
-/

/-- Board model: `size` is the side length (`GameConfig.BOARD_SIZE` is 15, but
`BoardManager` accepts any size), `cell x y` is the occupant of column `x`,
row `y` (0 empty, otherwise a player number). -/
structure Board where
  size : Nat
  cell : Nat → Nat → Nat

/-- Utils.isValidCoordinate: `x >= 0 && x < size && y >= 0 && y < size`. -/
def isValidPos (b : Board) (x y : Int) : Prop :=
  0 ≤ x ∧ x < (b.size : Int) ∧ 0 ≤ y ∧ y < (b.size : Int)

instance (b : Board) (x y : Int) : Decidable (isValidPos b x y) := by
  unfold isValidPos; infer_instance

/-- Occupant of an `Int` coordinate pair; only meaningful under `isValidPos`,
which is how every source access is guarded. -/
def cellAt (b : Board) (x y : Int) : Nat :=
  b.cell x.toNat y.toNat

/-- Functional update of one (in-range) cell. -/
def setCell (b : Board) (x y v : Nat) : Board :=
  ⟨b.size, fun i j => if i = x ∧ j = y then v else b.cell i j⟩

/-- BoardManager.placePiece: fails on an out-of-bounds or occupied cell,
otherwise writes `player` into the cell.  Returns the JS boolean result
together with the post-call board. -/
def placePiece (b : Board) (x y : Int) (player : Nat) : Bool × Board :=
  if isValidPos b x y ∧ cellAt b x y = 0 then
    (true, setCell b x.toNat y.toNat player)
  else
    (false, b)

/-- BoardManager.removePiece: clears a valid cell and returns its previous
occupant; an invalid coordinate returns EMPTY and changes nothing. -/
def removePiece (b : Board) (x y : Int) : Nat × Board :=
  if isValidPos b x y then
    (cellAt b x y, setCell b x.toNat y.toNat 0)
  else
    (0, b)

/-- BoardManager.getEmptyPositions: row-major scan (`x` ascending, then `y`
ascending) collecting the empty cells. -/
def getEmptyPositions (b : Board) : List (Nat × Nat) :=
  (List.range b.size).flatMap fun x =>
    ((List.range b.size).filter fun y => b.cell x y = 0).map fun y => (x, y)

/-- One piece as returned by BoardManager.getAllPieces: coordinates plus
owner. -/
structure Piece where
  x : Nat
  y : Nat
  player : Nat
deriving DecidableEq, Repr

/-- BoardManager.getAllPieces (no player filter): row-major scan collecting
the occupied cells with their owners. -/
def getAllPieces (b : Board) : List Piece :=
  (List.range b.size).flatMap fun x =>
    ((List.range b.size).filter fun y => b.cell x y ≠ 0).map fun y =>
      ⟨x, y, b.cell x y⟩

/-- BoardManager.getPieceCount, computed per row like the source's double
loop. -/
def getPieceCount (b : Board) : Nat :=
  ((List.range b.size).map fun x =>
    ((List.range b.size).filter fun y => b.cell x y ≠ 0).length).sum

/-- Number of pieces owned by `p` (BoardManager.getPlayerPieceCount). -/
def playerPieceCount (b : Board) (p : Nat) : Nat :=
  ((List.range b.size).map fun x =>
    ((List.range b.size).filter fun y => b.cell x y = p).length).sum

/-- BoardManager.isFull. -/
def isFull (b : Board) : Prop :=
  getPieceCount b = b.size * b.size

instance (b : Board) : Decidable (isFull b) := by
  unfold isFull; infer_instance

/-- BoardManager.fromArray: replaces the grid only when the incoming array
has the manager's size. -/
def fromArray (b : Board) (arr : Board) : Board :=
  if arr.size = b.size then arr else b

/-- BoardManager.createEmptyBoard of a given size. -/
def emptyBoard (n : Nat) : Board :=
  ⟨n, fun _ _ => 0⟩

/-! ## WinChecker -/

/-- The four scan directions of WinChecker and SmartAI: horizontal,
vertical, main diagonal, anti-diagonal. -/
def directions : List (Int × Int) :=
  [(0, 1), (1, 0), (1, 1), (1, -1)]

/-- One arm of WinChecker.checkDirection's `while` loop: starting from
`(x, y)`, step by `(dx, dy)` and count how many consecutive cells are valid
and hold `p`.  The source loop is unbounded; fuel `b.size` is supplied at the
call sites and is shown never to run out (`countRun_lt_fuel`). -/
def countRun (b : Board) (p : Nat) (dx dy : Int) : Int → Int → Nat → Nat
  | _, _, 0 => 0
  | x, y, fuel + 1 =>
    if isValidPos b (x + dx) (y + dy) ∧ cellAt b (x + dx) (y + dy) = p then
      countRun b p dx dy (x + dx) (y + dy) fuel + 1
    else
      0

/-- WinChecker.checkDirection: 1 (the cell itself) plus the two arms, wins
when the total reaches 5. -/
def checkDirection (b : Board) (x y dx dy : Int) (p : Nat) : Bool :=
  decide (5 ≤ 1 + countRun b p dx dy x y b.size + countRun b p (-dx) (-dy) x y b.size)

/-- WinChecker.checkWin: given the last move, return its player if some
direction has a five-in-a-row through it, else no winner. -/
def checkWin (b : Board) (lastMove : Option (Int × Int × Nat)) : Option Nat :=
  match lastMove with
  | none => none
  | some (x, y, p) =>
    if directions.any (fun d => checkDirection b x y d.1 d.2 p) then some p else none

/-- WinChecker.isDraw. -/
def isDraw (b : Board) : Prop :=
  isFull b

/-- Single stone test used by the specification-side run description:
coordinate in bounds and holding `p`. -/
def stoneAt (b : Board) (p : Nat) (x y : Int) : Bool :=
  decide (isValidPos b x y) && decide (cellAt b x y = p)

/-- Specification-side statement of C2's win condition, written from the
spec's words rather than from the code: some direction carries a window of 5
consecutive cells containing `(x, y)` (offsets `j - a`, `j ∈ [0,4]`, for some
`a ∈ [0,4]`) that are all in bounds and all hold `p`; i.e. the contiguous run
of `p`-stones through `(x, y)` has length at least 5. -/
def hasFiveThrough (b : Board) (p : Nat) (x y : Int) : Bool :=
  directions.any fun d =>
    (List.range 5).any fun a =>
      (List.range 5).all fun j =>
        stoneAt b p (x + d.1 * ((j : Int) - (a : Int))) (y + d.2 * ((j : Int) - (a : Int)))

/-! ## SmartAI: line analysis -/

/-- Result of SmartAI.analyzeLine. -/
structure LineInfo where
  count : Nat
  blocked : Nat
  spaces : Nat
  canWin : Bool
deriving DecidableEq, Repr

/-- One arm of SmartAI.analyzeLine's bounded `for` loop (`i` from 1 to 4):
walk up to `k` steps from `(x, y)` along `(dx, dy)`, returning the number of
consecutive own stones, the blocked flag (stopped on the edge or an opponent
stone) and the space count (1 when stopped on an in-bounds empty cell). -/
def scanDir (b : Board) (p : Nat) (dx dy : Int) : Int → Int → Nat → Nat × Bool × Nat
  | _, _, 0 => (0, false, 0)
  | x, y, k + 1 =>
    if ¬ isValidPos b (x + dx) (y + dy) then (0, true, 0)
    else if cellAt b (x + dx) (y + dy) = p then
      let r := scanDir b p dx dy (x + dx) (y + dy) k
      (r.1 + 1, r.2.1, r.2.2)
    else if cellAt b (x + dx) (y + dy) = 0 then (0, false, 1)
    else (0, true, 0)

/-- SmartAI.analyzeLine: combine the two 4-step arms around `(x, y)`. -/
def analyzeLine (b : Board) (x y dx dy : Int) (p : Nat) : LineInfo :=
  let pos := scanDir b p dx dy x y 4
  let neg := scanDir b p (-dx) (-dy) x y 4
  let count := 1 + pos.1 + neg.1
  { count := count
    blocked := (if pos.2.1 then 1 else 0) + (if neg.2.1 then 1 else 0)
    spaces := pos.2.2 + neg.2.2
    canWin := decide (5 ≤ count) }

/-- Specification-side step test for C8: the `i`-th cell from `(x, y)` along
`(dx, dy)` is in bounds and holds `p`. -/
def stepStone (b : Board) (p : Nat) (x y dx dy : Int) (i : Nat) : Bool :=
  stoneAt b p (x + dx * (i : Int)) (y + dy * (i : Int))

/-- Specification-side run length for C8, for a walk capped at `k` steps: the
number of contiguous same-player stones found before the walk terminates. -/
def runLen (b : Board) (p : Nat) (x y dx dy : Int) (k : Nat) : Nat :=
  ((List.range k).takeWhile fun i => stepStone b p x y dx dy (i + 1)).length

/-- Specification-side "terminates open" for C8: the walk stops (before its
step cap) on an in-bounds empty cell. -/
def stopsOpen (b : Board) (p : Nat) (x y dx dy : Int) (k : Nat) : Bool :=
  let r := runLen b p x y dx dy k
  decide (r < k) &&
    decide (isValidPos b (x + dx * ((r : Int) + 1)) (y + dy * ((r : Int) + 1))) &&
    decide (cellAt b (x + dx * ((r : Int) + 1)) (y + dy * ((r : Int) + 1)) = 0)

/-- Specification-side "terminates closed" for C8: the walk stops (before its
step cap) on the board edge or on an opponent stone. -/
def stopsClosed (b : Board) (p : Nat) (x y dx dy : Int) (k : Nat) : Bool :=
  let r := runLen b p x y dx dy k
  let nx := x + dx * ((r : Int) + 1)
  let ny := y + dy * ((r : Int) + 1)
  decide (r < k) &&
    (!(decide (isValidPos b nx ny)) ||
      (decide (cellAt b nx ny ≠ 0) && decide (cellAt b nx ny ≠ p)))

/-! ## SmartAI: move selection -/

/-- SmartAI difficulty levels. -/
inductive Difficulty where
  | easy
  | normal
  | hard
deriving DecidableEq, Repr

/-- One arm of SmartAI.checkWin's bounded walk (the later, size-relative
definition of the two in the class body, which is the effective one): count
up to 4 consecutive own stones. -/
def count4 (b : Board) (p : Nat) (dx dy : Int) : Int → Int → Nat → Nat
  | _, _, 0 => 0
  | x, y, k + 1 =>
    if isValidPos b (x + dx) (y + dy) ∧ cellAt b (x + dx) (y + dy) = p then
      count4 b p dx dy (x + dx) (y + dy) k + 1
    else
      0

/-- SmartAI.checkWin: five-in-a-row through `(x, y)` using 4-step bounded
walks. -/
def smartCheckWin (b : Board) (x y : Int) (p : Nat) : Bool :=
  directions.any fun d =>
    decide (5 ≤ 1 + count4 b p d.1 d.2 x y 4 + count4 b p (-d.1) (-d.2) x y 4)

/-- SmartAI.findWinningMove: first empty cell (row-major) whose hypothetical
occupation by `p` wins. -/
def findWinningMove (b : Board) (p : Nat) : Option (Nat × Nat) :=
  (getEmptyPositions b).find? fun pos =>
    smartCheckWin (setCell b pos.1 pos.2 p) (pos.1 : Int) (pos.2 : Int) p

/-- Result of SmartAI.analyzeLineAdvanced. -/
structure AdvLineInfo where
  count : Nat
  leftBlocked : Bool
  rightBlocked : Bool
  leftEmpty : Nat
  rightEmpty : Nat
deriving DecidableEq, Repr

/-- One arm of SmartAI.analyzeLineAdvanced's loop.  Note the source checks
bounds against the constant 15, not the board's length; the embedding keeps
that. -/
def scanDir15 (b : Board) (p : Nat) (dx dy : Int) : Int → Int → Nat → Nat × Bool × Nat
  | _, _, 0 => (0, false, 0)
  | x, y, k + 1 =>
    let nx := x + dx
    let ny := y + dy
    if nx < 0 ∨ 15 ≤ nx ∨ ny < 0 ∨ 15 ≤ ny then (0, true, 0)
    else if cellAt b nx ny = p then
      let r := scanDir15 b p dx dy nx ny k
      (r.1 + 1, r.2.1, r.2.2)
    else if cellAt b nx ny = 0 then (0, false, 1)
    else (0, true, 0)

/-- SmartAI.analyzeLineAdvanced. -/
def analyzeLineAdvanced (b : Board) (x y dx dy : Int) (p : Nat) : AdvLineInfo :=
  let left := scanDir15 b p (-dx) (-dy) x y 4
  let right := scanDir15 b p dx dy x y 4
  { count := 1 + left.1 + right.1
    leftBlocked := left.2.1
    rightBlocked := right.2.1
    leftEmpty := left.2.2
    rightEmpty := right.2.2 }

/-- Hard-difficulty score constants of SmartAI.updateScoresForDifficulty
(the branch for 'hard', after the special enhancement block). -/
def hardFOUR : ℚ := 50000

/-- Hard-difficulty THREE weight. -/
def hardTHREE : ℚ := 4000

/-- Hard-difficulty FOUR_THREE tactic weight. -/
def hardFOUR_THREE : ℚ := 200000

/-- Hard-difficulty DOUBLE_THREE tactic weight. -/
def hardDOUBLE_THREE : ℚ := 150000

/-- SmartAI.checkAdvancedTactics with the hard-difficulty score table (the
only difficulty from which SmartAI.findAdvancedTacticMove is reached in
getBestMove). -/
def checkAdvancedTactics (b : Board) (x y : Int) (p : Nat) : ℚ :=
  let infos := directions.map fun d => analyzeLineAdvanced b x y d.1 d.2 p
  let activeFours := (infos.filter fun i =>
    i.count = 4 && !i.leftBlocked && !i.rightBlocked).length
  let activeThrees := (infos.filter fun i =>
    i.count = 3 && !i.leftBlocked && !i.rightBlocked &&
      (decide (0 < i.leftEmpty) || decide (0 < i.rightEmpty))).length
  if 1 ≤ activeFours ∧ 1 ≤ activeThrees then hardFOUR_THREE
  else if 2 ≤ activeThrees then hardDOUBLE_THREE
  else if 1 ≤ activeFours then hardFOUR * (3 / 2)
  else if 1 ≤ activeThrees then hardTHREE * (6 / 5)
  else 0

/-- SmartAI.findAdvancedTacticMove: first empty cell whose hypothetical
occupation scores at least DOUBLE_THREE. -/
def findAdvancedTacticMove (b : Board) (p : Nat) : Option (Nat × Nat) :=
  (getEmptyPositions b).find? fun pos =>
    decide (hardDOUBLE_THREE ≤
      checkAdvancedTactics (setCell b pos.1 pos.2 p) (pos.1 : Int) (pos.2 : Int) p)

/-- The nine opening cells of SmartAI.getOpeningMove, in source order. -/
def openingMoves : List (Nat × Nat) :=
  [(7, 7), (6, 7), (8, 7), (7, 6), (7, 8), (6, 6), (8, 8), (6, 8), (8, 6)]

/-- SmartAI.getOpeningMove: first free cell among the nine opening cells,
else a random empty cell (`randIdx` models `Math.floor(Math.random()*len)`,
which ranges exactly over the residues modulo the length). -/
def getOpeningMove (b : Board) (randIdx : Nat) : Option (Nat × Nat) :=
  match openingMoves.find? (fun m => b.cell m.1 m.2 = 0) with
  | some m => some m
  | none =>
    let empty := getEmptyPositions b
    empty[randIdx % empty.length]?

/-- Descending-by-score order used by getBestMove's
`moves.sort((a, b) => b.score - a.score)`. -/
def scoreGe (a c : (Nat × Nat) × ℚ) : Prop :=
  c.2 ≤ a.2

instance : DecidableRel scoreGe := fun a c => by
  unfold scoreGe; infer_instance

instance : IsTotal ((Nat × Nat) × ℚ) scoreGe :=
  ⟨fun a c => le_total c.2 a.2⟩

instance : IsTrans ((Nat × Nat) × ℚ) scoreGe :=
  ⟨fun _ _ _ h h2 => le_trans h2 h⟩

/-- Scoring stage of SmartAI.getBestMove: score every candidate, sort
descending by score.  JS `Array.prototype.sort` with a consistent comparator
is stable (ES2019), which insertion sort realises exactly.  Scores are JS
numbers; they are abstracted here as an arbitrary rational-valued function,
which the claims about this stage do not constrain. -/
def sortedScoredMoves (cands : List (Nat × Nat)) (score : Nat × Nat → ℚ) :
    List ((Nat × Nat) × ℚ) :=
  List.insertionSort scoreGe (cands.map fun pos => (pos, score pos))

/-- Selection stage of SmartAI.getBestMove after sorting: when the mistake
draw fires (`Math.random() < mistakeChance`, passed as `mistake`), pick a
random entry of the top `min 5` slice, else the first entry. -/
def pickMove (sorted : List ((Nat × Nat) × ℚ)) (mistake : Bool) (mIdx : Nat) :
    Option ((Nat × Nat) × ℚ) :=
  if mistake then
    let top := sorted.take (min 5 sorted.length)
    top[mIdx % top.length]?
  else
    sorted.head?

/-- SmartAI.getBestMove.  Randomness (`mistake` draw, random indices) and the
score function `evaluatePosition` are passed as parameters; the returned
record's score/reasoning presentation fields are dropped, keeping the
coordinates. -/
def getBestMove (b : Board) (aiP humanP : Nat) (diff : Difficulty)
    (score : Nat × Nat → ℚ) (mistake : Bool) (mIdx openIdx : Nat) :
    Option (Nat × Nat) :=
  let empty := getEmptyPositions b
  if empty.length = 0 then none
  else if 220 ≤ empty.length then getOpeningMove b openIdx
  else
    let hardPick : Option (Nat × Nat) :=
      if diff = Difficulty.hard then
        match findWinningMove b aiP with
        | some m => some m
        | none =>
          match findWinningMove b humanP with
          | some m => some m
          | none => findAdvancedTacticMove b aiP
      else none
    match hardPick with
    | some m => some m
    | none => (pickMove (sortedScoredMoves empty score) mistake mIdx).map (·.1)

/-! ## Skills, history and the game controller -/

/-- Per-player skill usage flags (SkillSystem.skillsUsed entry). -/
structure SkillFlags where
  flyingSand : Bool
  mountainMover : Bool
  timeRewind : Bool
deriving DecidableEq, Repr

/-- Map from the two players to their flags (SkillSystem.skillsUsed; the JS
object is keyed by the player numbers HUMAN = 1, AI = 2). -/
structure SkillsUsed where
  human : SkillFlags
  ai : SkillFlags
deriving DecidableEq, Repr

/-- Lookup `skillsUsed[player]`. -/
def SkillsUsed.get (su : SkillsUsed) (player : Nat) : SkillFlags :=
  if player = 1 then su.human else su.ai

/-- The three skills of GameConfig.SKILLS. -/
inductive Skill where
  | flyingSand
  | mountainMover
  | timeRewind
deriving DecidableEq, Repr

/-- Lookup of one flag. -/
def SkillFlags.get (f : SkillFlags) : Skill → Bool
  | .flyingSand => f.flyingSand
  | .mountainMover => f.mountainMover
  | .timeRewind => f.timeRewind

/-- Functional update of one flag. -/
def SkillFlags.set (f : SkillFlags) : Skill → Bool → SkillFlags
  | .flyingSand, v => { f with flyingSand := v }
  | .mountainMover, v => { f with mountainMover := v }
  | .timeRewind, v => { f with timeRewind := v }

/-- Update `skillsUsed[player][skill] = v`. -/
def SkillsUsed.set (su : SkillsUsed) (player : Nat) (sk : Skill) (v : Bool) : SkillsUsed :=
  if player = 1 then { su with human := su.human.set sk v }
  else { su with ai := su.ai.set sk v }

/-- All skill flags false (SkillSystem's constructor / resetSkills). -/
def freshSkills : SkillsUsed :=
  ⟨⟨false, false, false⟩, ⟨false, false, false⟩⟩

/-- One GameHistoryManager snapshot.  `Utils.deepClone` is the identity on
these pure values, and the wall-clock `timestamp` field (used only for the
statistics display) is dropped. -/
structure Snapshot where
  boardState : Board
  currentPlayer : Nat
  skillsUsed : SkillsUsed
  moveCount : Nat

/-- GameHistoryManager.saveState: append, then evict the oldest snapshot when
the capacity (maxHistorySize = 100) is exceeded. -/
def saveState (h : List Snapshot) (s : Snapshot) : List Snapshot :=
  let h2 := h ++ [s]
  if 100 < h2.length then h2.drop 1 else h2

/-- GameHistoryManager.getCurrentState: the most recent snapshot. -/
def getCurrentState (h : List Snapshot) : Option Snapshot :=
  h.getLast?

/-- GameHistoryManager.rewindSteps: on a bad step count, return null and
leave the store alone; otherwise pop `steps` snapshots from the tail and
return the then-latest snapshot (null when the store emptied). -/
def rewindSteps (h : List Snapshot) (steps : Nat) : Option Snapshot × List Snapshot :=
  if steps = 0 ∨ h.length < steps then (none, h)
  else
    let h2 := List.dropLast^[steps] h
    (getCurrentState h2, h2)

/-- GameHistoryManager.canRewind. -/
def canRewind (h : List Snapshot) (steps : Nat) : Prop :=
  steps ≤ h.length ∧ 0 < steps

instance (h : List Snapshot) (steps : Nat) : Decidable (canRewind h steps) := by
  unfold canRewind; infer_instance

/-- Game status (GameConfig.GAME_STATUS). -/
inductive GStatus where
  | playing
  | ended
  | paused
deriving DecidableEq, Repr

/-- Result of a finished game. -/
inductive Winner where
  | player (p : Nat)
  | draw
deriving DecidableEq, Repr

/-- The mutable state of GameController together with the stores it owns
(BoardManager, GameHistoryManager, SkillSystem).  Rendering, UI and the
external advisor are outside the model. -/
structure GameState where
  board : Board
  currentPlayer : Nat
  gameStatus : GStatus
  winner : Option Winner
  moveCount : Nat
  lastMove : Option (Int × Int × Nat)
  history : List Snapshot
  skillsUsed : SkillsUsed

/-- Snapshot of the live state (GameController.saveCurrentState's argument
to saveState). -/
def snapOf (gs : GameState) : Snapshot :=
  ⟨gs.board, gs.currentPlayer, gs.skillsUsed, gs.moveCount⟩

/-- GameController.saveCurrentState. -/
def saveCurrentState (gs : GameState) : GameState :=
  { gs with history := saveState gs.history (snapOf gs) }

/-- GameController.restoreGameState (the state-mutating part; the UI refresh
and the deferred AI-turn trigger are outside the model). -/
def restoreGameState (gs : GameState) (st : Snapshot) : GameState :=
  { gs with
    board := fromArray gs.board st.boardState
    currentPlayer := st.currentPlayer
    skillsUsed := st.skillsUsed
    moveCount := st.moveCount }

/-- GameController.endGame (state part). -/
def endGame (gs : GameState) (w : Winner) : GameState :=
  { gs with gameStatus := GStatus.ended, winner := some w }

/-- GameController.checkGameEnd: win via WinChecker on the last move (the JS
`if (winner)` treats the player number 0 as no winner), then the draw
check. -/
def checkGameEnd (gs : GameState) : Bool × GameState :=
  let w := checkWin gs.board gs.lastMove
  match w with
  | some p =>
    if p ≠ 0 then (true, endGame gs (Winner.player p))
    else if isFull gs.board then (true, endGame gs Winner.draw)
    else (false, gs)
  | none =>
    if isFull gs.board then (true, endGame gs Winner.draw)
    else (false, gs)

/-- GameController.switchTurn. -/
def switchTurn (gs : GameState) : GameState :=
  { gs with currentPlayer := if gs.currentPlayer = 1 then 2 else 1 }

/-! ### SkillSystem -/

/-- SkillSystem.canUseSkill: the skill type exists (always true for the
three-valued `Skill`), the player has not used it, and the game is in
progress. -/
def canUseSkill (gs : GameState) (sk : Skill) (player : Nat) : Prop :=
  (gs.skillsUsed.get player).get sk = false ∧ gs.gameStatus = GStatus.playing

instance (gs : GameState) (sk : Skill) (player : Nat) :
    Decidable (canUseSkill gs sk player) := by
  unfold canUseSkill; infer_instance

/-- The removal loop of SkillSystem.flyingSandStorm / mountainMover: remove
each selected piece in order, recording `{x, y, player: removePiece(x, y)}`
(the owner is re-read from the board at removal time, exactly as the source
does). -/
def removePhase (b : Board) : List Piece → List Piece × Board
  | [] => ([], b)
  | pc :: rest =>
    let r := removePiece b (pc.x : Int) (pc.y : Int)
    let rec' := removePhase r.2 rest
    (⟨pc.x, pc.y, r.1⟩ :: rec'.1, rec'.2)

/-- The redistribution loop of SkillSystem.flyingSandStorm: place each
removed piece's owner onto the paired new position (placePiece's boolean
result is discarded, as in the source). -/
def placePhase (b : Board) : List (Piece × (Nat × Nat)) → Board
  | [] => b
  | (pc, pos) :: rest => placePhase (placePiece b (pos.1 : Int) (pos.2 : Int) pc.player).2 rest

/-- SkillSystem.flyingSandStorm.  `shuffledPieces` / `shuffledEmpties` model
the shuffles inside the two `Utils.randomSelect` calls (theorems quantify
over all permutations of `getAllPieces` / `getEmptyPositions`).  The
animation step has no state effect. -/
def flyingSandStorm (b : Board) (shuffledPieces : List Piece)
    (shuffledEmpties : List (Nat × Nat)) : Bool × Board :=
  let allPieces := getAllPieces b
  if allPieces.length = 0 then (false, b)
  else
    let targetCount := min 5 allPieces.length
    let selected := shuffledPieces.take (min targetCount shuffledPieces.length)
    let emptyPositions := getEmptyPositions b
    if emptyPositions.length < selected.length then (false, b)
    else
      let rem := removePhase b selected
      let newPositions := shuffledEmpties.take (min rem.1.length shuffledEmpties.length)
      (true, placePhase rem.2 (rem.1.zip newPositions))

/-- SkillSystem.mountainMover: remove `min 3 totalPieces` randomly selected
pieces; fails only on an empty board. -/
def mountainMover (b : Board) (shuffledPieces : List Piece) : Bool × Board :=
  let allPieces := getAllPieces b
  if allPieces.length = 0 then (false, b)
  else
    let targetCount := min 3 allPieces.length
    let selected := shuffledPieces.take (min targetCount shuffledPieces.length)
    (true, (removePhase b selected).2)

/-- GameConfig.SKILLS.timeRewind.rewindSteps. -/
def configRewindSteps : Nat := 2

/-- SkillSystem.timeRewind: guard with canRewind, pop the configured number
of snapshots, and restore from the returned snapshot when there is one.
When rewindSteps returns null after popping (the history held exactly the
requested number of snapshots), the source keeps the popped history and
reports failure. -/
def timeRewind (gs : GameState) : Bool × GameState :=
  if ¬ canRewind gs.history configRewindSteps then (false, gs)
  else
    let r := rewindSteps gs.history configRewindSteps
    let gs1 := { gs with history := r.2 }
    match r.1 with
    | some st => (true, restoreGameState gs1 st)
    | none => (false, gs1)

/-- SkillSystem.useSkill: gate on canUseSkill, run the skill's effect, and on
success mark the invoking player's flag (after the effect, so a rewind's
restored record is what gets marked). -/
def useSkill (gs : GameState) (sk : Skill) (player : Nat)
    (shuffledPieces : List Piece) (shuffledEmpties : List (Nat × Nat)) :
    Bool × GameState :=
  if ¬ canUseSkill gs sk player then (false, gs)
  else
    let r : Bool × GameState :=
      match sk with
      | .flyingSand =>
        let e := flyingSandStorm gs.board shuffledPieces shuffledEmpties
        (e.1, { gs with board := e.2 })
      | .mountainMover =>
        let e := mountainMover gs.board shuffledPieces
        (e.1, { gs with board := e.2 })
      | .timeRewind => timeRewind gs
    if r.1 then
      (true, { r.2 with skillsUsed := r.2.skillsUsed.set player sk true })
    else
      r

/-! ### Controller-level operations -/

/-- GameController.handlePlayerMove: status/turn/position guards, place the
stone, record the move, snapshot, check game end, then hand the turn to the
AI (whose deferred turn runs as a separate operation). -/
def handlePlayerMove (gs : GameState) (x y : Int) : Bool × GameState :=
  if gs.gameStatus ≠ GStatus.playing then (false, gs)
  else if gs.currentPlayer ≠ 1 then (false, gs)
  else if ¬ (isValidPos gs.board x y ∧ cellAt gs.board x y = 0) then (false, gs)
  else
    let pr := placePiece gs.board x y 1
    if pr.1 then
      let gs1 := { gs with
        board := pr.2
        lastMove := some (x, y, 1)
        moveCount := gs.moveCount + 1 }
      let gs2 := saveCurrentState gs1
      let ce := checkGameEnd gs2
      if ce.1 then (true, ce.2) else (true, switchTurn ce.2)
    else (false, gs)

/-- The move-application part of GameController.handleAITurn (lines placing
the advisor-validated move): validity check, place, record, snapshot, end
check, switch.  The advisor decision itself is external input `(x, y)`. -/
def aiApplyMove (gs : GameState) (x y : Int) : GameState :=
  if gs.gameStatus ≠ GStatus.playing ∨ gs.currentPlayer ≠ 2 then gs
  else if isValidPos gs.board x y ∧ cellAt gs.board x y = 0 then
    let pr := placePiece gs.board x y 2
    let gs1 := { gs with
      board := pr.2
      lastMove := some (x, y, 2)
      moveCount := gs.moveCount + 1 }
    let gs2 := saveCurrentState gs1
    let ce := checkGameEnd gs2
    if ce.1 then ce.2 else switchTurn ce.2
  else gs

/-- GameController.handleSkillUse (human skill request): status/turn guards,
useSkill, and on success snapshot the post-effect state and run the end
check (the turn is not switched). -/
def handleSkillUse (gs : GameState) (sk : Skill)
    (shuffledPieces : List Piece) (shuffledEmpties : List (Nat × Nat)) : GameState :=
  if gs.gameStatus ≠ GStatus.playing then gs
  else if gs.currentPlayer ≠ 1 then gs
  else if ¬ canUseSkill gs sk 1 then gs
  else
    let r := useSkill gs sk 1 shuffledPieces shuffledEmpties
    if r.1 then (checkGameEnd (saveCurrentState r.2)).2 else r.2

/-- The skill-use part of GameController.handleAITurn: useSkill for the AI
and, on success, snapshot and end check (after a timeRewind the AI turn ends
immediately; after other skills the move phase follows as a separate
operation). -/
def aiUseSkill (gs : GameState) (sk : Skill)
    (shuffledPieces : List Piece) (shuffledEmpties : List (Nat × Nat)) : GameState :=
  if gs.gameStatus ≠ GStatus.playing ∨ gs.currentPlayer ≠ 2 then gs
  else
    let r := useSkill gs sk 2 shuffledPieces shuffledEmpties
    if r.1 then (checkGameEnd (saveCurrentState r.2)).2 else r.2

/-- GameController.startNewGame: fresh 15×15 board, cleared history and
skills, human to move, then the initial snapshot. -/
def startNewGame : GameState :=
  saveCurrentState
    { board := emptyBoard 15
      currentPlayer := 1
      gameStatus := GStatus.playing
      winner := none
      moveCount := 0
      lastMove := none
      history := []
      skillsUsed := freshSkills }

/-- One externally triggered game operation, for stating mid-game
invariants. -/
inductive Op where
  | playerMove (x y : Int)
  | aiMove (x y : Int)
  | playerSkill (sk : Skill) (sp : List Piece) (se : List (Nat × Nat))
  | aiSkill (sk : Skill) (sp : List Piece) (se : List (Nat × Nat))

/-- Apply one operation to the game state. -/
def stepOp (gs : GameState) : Op → GameState
  | .playerMove x y => (handlePlayerMove gs x y).2
  | .aiMove x y => aiApplyMove gs x y
  | .playerSkill sk sp se => handleSkillUse gs sk sp se
  | .aiSkill sk sp se => aiUseSkill gs sk sp se

/-- Whether an operation is a skill use whose underlying useSkill call is a
successful timeRewind (the one operation that rewrites the usage record from
a snapshot). -/
def isSuccessfulRewind (gs : GameState) : Op → Bool
  | .playerSkill .timeRewind sp se =>
    decide (gs.gameStatus = GStatus.playing) && decide (gs.currentPlayer = 1) &&
      (useSkill gs .timeRewind 1 sp se).1
  | .aiSkill .timeRewind sp se =>
    decide (gs.gameStatus = GStatus.playing) && decide (gs.currentPlayer = 2) &&
      (useSkill gs .timeRewind 2 sp se).1
  | _ => false

/-- Number of cells of `b` whose occupant satisfies `P`, computed per row
the way the source's counting loops run.  `getPieceCount` and
`playerPieceCount` are instances of it (definitionally). -/
def countCells (b : Board) (P : Nat → Prop) [DecidablePred P] : Nat :=
  ((List.range b.size).map fun x =>
    ((List.range b.size).filter fun y => decide (P (b.cell x y))).length).sum

/-- Row-major (ascending `x`, then ascending `y`) strict order on cells. -/
def lexLt (p q : Nat × Nat) : Prop :=
  p.1 < q.1 ∨ (p.1 = q.1 ∧ p.2 < q.2)

/-- Concrete 2×2 board with a single human stone at (0,0), used by witnesses. -/
def wbOne : Board :=
  ⟨2, fun i j => if i = 0 ∧ j = 0 then 1 else 0⟩

/-- Concrete 15×15 board with human stones at (7,0)..(7,4) (the spec's win
scenario), used by witnesses. -/
def wbRow : Board :=
  ⟨15, fun i j => if i = 7 ∧ j < 5 then 1 else 0⟩

/-! ## Basic state-preservation lemmas -/

theorem saveCurrentState_skillsUsed (gs : GameState) :
    (saveCurrentState gs).skillsUsed = gs.skillsUsed := rfl

theorem endGame_skillsUsed (gs : GameState) (w : Winner) :
    (endGame gs w).skillsUsed = gs.skillsUsed := rfl

theorem checkGameEnd_skillsUsed (gs : GameState) :
    (checkGameEnd gs).2.skillsUsed = gs.skillsUsed := by
  unfold checkGameEnd
  rcases checkWin gs.board gs.lastMove with _ | p <;> dsimp only <;>
    split_ifs <;> simp [endGame]

theorem switchTurn_skillsUsed (gs : GameState) :
    (switchTurn gs).skillsUsed = gs.skillsUsed := rfl

theorem flags_get_set_true (f : SkillFlags) (sk k : Skill) (h : f.get k = true) :
    (f.set sk true).get k = true := by
  cases sk <;> cases k <;> simp_all [SkillFlags.get, SkillFlags.set]

theorem su_get_set_true (su : SkillsUsed) (pl p : Nat) (sk k : Skill)
    (h : (su.get p).get k = true) : ((su.set pl sk true).get p).get k = true := by
  unfold SkillsUsed.set SkillsUsed.get at *
  split_ifs with h1 h2 h2 <;> simp_all [flags_get_set_true]

/-! ## C9: BoardManager.placePiece -/

/-- C9: a placement onto an out-of-bounds coordinate or a non-empty cell
returns failure and leaves every cell unchanged; a placement onto an
in-bounds empty cell returns success and sets exactly that cell to the
player. -/
theorem placePiece_spec (b : Board) (x y : Int) (p : Nat) :
    ((placePiece b x y p).1 = true ↔ isValidPos b x y ∧ cellAt b x y = 0) ∧
    (∀ i j : Nat, (placePiece b x y p).2.cell i j =
      if (placePiece b x y p).1 = true ∧ i = x.toNat ∧ j = y.toNat then p
      else b.cell i j) := by
  unfold placePiece
  split_ifs with h
  · refine ⟨by simp [h], fun i j => ?_⟩
    simp only [setCell]
    by_cases hij : i = x.toNat ∧ j = y.toNat <;> simp [hij]
  · refine ⟨by simpa using h, fun i j => ?_⟩
    simp

/-! ## C6: three-snapshot rewind scenario -/

/-- C6: with exactly 3 snapshots, rewinding 6 steps fails and changes
nothing; rewinding 2 steps discards the last two snapshots and returns the
snapshot that was at index `length - 3`, which becomes the new tail and from
which board, current turn and skill usage are restored. -/
theorem rewind_three_snapshot_scenario (s0 s1 s2 : Snapshot) (gs : GameState)
    (hsz : s0.boardState.size = gs.board.size) :
    rewindSteps [s0, s1, s2] 6 = (none, [s0, s1, s2]) ∧
    rewindSteps [s0, s1, s2] 2 = (some s0, [s0]) ∧
    [s0, s1, s2][3 - 3]? = some s0 ∧
    (restoreGameState gs s0).board = s0.boardState ∧
    (restoreGameState gs s0).currentPlayer = s0.currentPlayer ∧
    (restoreGameState gs s0).skillsUsed = s0.skillsUsed := by
  refine ⟨?_, ?_, rfl, ?_, rfl, rfl⟩
  · simp [rewindSteps]
  · show (getCurrentState (List.dropLast^[2] [s0, s1, s2]), List.dropLast^[2] [s0, s1, s2]) =
      (some s0, [s0])
    simp [Function.iterate_succ, getCurrentState, List.dropLast]
  · simp [restoreGameState, fromArray, hsz]

/-- Witness for C6 at a concrete history and game state. -/
theorem rewind_three_snapshot_scenario_witness :
    rewindSteps [⟨emptyBoard 15, 1, freshSkills, 0⟩, ⟨emptyBoard 15, 1, freshSkills, 1⟩,
        ⟨emptyBoard 15, 2, freshSkills, 2⟩] 2 =
      (some ⟨emptyBoard 15, 1, freshSkills, 0⟩, [⟨emptyBoard 15, 1, freshSkills, 0⟩]) ∧
    (restoreGameState startNewGame ⟨emptyBoard 15, 1, freshSkills, 0⟩).currentPlayer = 1 :=
  ⟨(rewind_three_snapshot_scenario ⟨emptyBoard 15, 1, freshSkills, 0⟩
      ⟨emptyBoard 15, 1, freshSkills, 1⟩ ⟨emptyBoard 15, 2, freshSkills, 2⟩
      startNewGame rfl).2.1,
    (rewind_three_snapshot_scenario ⟨emptyBoard 15, 1, freshSkills, 0⟩
      ⟨emptyBoard 15, 1, freshSkills, 1⟩ ⟨emptyBoard 15, 2, freshSkills, 2⟩
      startNewGame rfl).2.2.2.2.1⟩

/-! ## C1: rewind with insufficient history -/

/-- C1 (divergence witness): with history length exactly 2 and the shipped
rewind step count N = 2 (so `length < N + 1`), the rewind skill reports
failure, and the board and usage record are untouched, but the history store
is emptied: both snapshots have been popped, contradicting the claim that a
failing rewind leaves the history store unchanged.  The state is reached
from a new game by one legal human move. -/
theorem timeRewind_failure_pops_history :
    (handlePlayerMove startNewGame 0 0).2.history.length = 2 ∧
    (handlePlayerMove startNewGame 0 0).2.history.length < configRewindSteps + 1 ∧
    (useSkill (handlePlayerMove startNewGame 0 0).2 Skill.timeRewind 2 [] []).1 = false ∧
    (useSkill (handlePlayerMove startNewGame 0 0).2 Skill.timeRewind 2 [] []).2.history = [] ∧
    (useSkill (handlePlayerMove startNewGame 0 0).2 Skill.timeRewind 2 [] []).2.board =
      (handlePlayerMove startNewGame 0 0).2.board ∧
    (useSkill (handlePlayerMove startNewGame 0 0).2 Skill.timeRewind 2 [] []).2.skillsUsed =
      (handlePlayerMove startNewGame 0 0).2.skillsUsed := by
  refine ⟨by decide, by decide, by decide, ?_, ?_, by decide⟩
  · rfl
  · rfl

/-! ## C3: one use per skill per player -/

/-- Counterexample to C3 as stated: after one human move and one AI move the
human uses mountainMover (the flag becomes true), plays another stone, and
then the AI uses a successful timeRewind.  The rewind restores the usage
record from the snapshot two steps back, which predates the mountainMover
use, so the human's mountainMover flag is reset to false mid-game.  The two
skill invocations feed the identity shuffle (the source lists themselves) to
the modelled Utils.randomSelect. -/
theorem skill_flag_reset_by_rewind :
    ((handleSkillUse (aiApplyMove (handlePlayerMove startNewGame 0 0).2 5 5)
        Skill.mountainMover
        (getAllPieces (aiApplyMove (handlePlayerMove startNewGame 0 0).2 5 5).board)
        []).skillsUsed.get 1).get Skill.mountainMover = true ∧
    isSuccessfulRewind
      (handlePlayerMove
        (handleSkillUse (aiApplyMove (handlePlayerMove startNewGame 0 0).2 5 5)
          Skill.mountainMover
          (getAllPieces (aiApplyMove (handlePlayerMove startNewGame 0 0).2 5 5).board)
          []) 2 2).2
      (Op.aiSkill Skill.timeRewind [] []) = true ∧
    ((stepOp
        (handlePlayerMove
          (handleSkillUse (aiApplyMove (handlePlayerMove startNewGame 0 0).2 5 5)
            Skill.mountainMover
            (getAllPieces (aiApplyMove (handlePlayerMove startNewGame 0 0).2 5 5).board)
            []) 2 2).2
        (Op.aiSkill Skill.timeRewind [] [])).skillsUsed.get 1).get Skill.mountainMover
      = false := by
  refine ⟨by decide, by decide, by decide⟩

/-- SkillSystem.useSkill on an already-used skill fails with no side effects
at all. -/
theorem useSkill_already_used (gs : GameState) (sk : Skill) (player : Nat)
    (sp : List Piece) (se : List (Nat × Nat))
    (h : (gs.skillsUsed.get player).get sk = true) :
    useSkill gs sk player sp se = (false, gs) := by
  have hc : ¬ canUseSkill gs sk player := by
    unfold canUseSkill
    simp [h]
  unfold useSkill
  simp [hc]

/-- Whenever timeRewind reports failure, the usage record is untouched (the
history store may still have been popped, see `timeRewind_failure_pops_history`). -/
theorem timeRewind_fail_skillsUsed (gs : GameState)
    (hf : (timeRewind gs).1 = false) :
    (timeRewind gs).2.skillsUsed = gs.skillsUsed := by
  unfold timeRewind at *
  split_ifs at hf ⊢
  · rcases hm : (rewindSteps gs.history configRewindSteps).1 with _ | st
    · simp [hm]
    · simp [hm] at hf
  · rfl

/-- Any useSkill call that is not a successful timeRewind preserves every
true usage flag. -/
theorem useSkill_flag_preserved (gs : GameState) (sk : Skill) (player : Nat)
    (sp : List Piece) (se : List (Nat × Nat)) (p : Nat) (k : Skill)
    (h : (gs.skillsUsed.get p).get k = true)
    (hnr : sk ≠ Skill.timeRewind ∨ (useSkill gs sk player sp se).1 = false) :
    ((useSkill gs sk player sp se).2.skillsUsed.get p).get k = true := by
  by_cases hc : canUseSkill gs sk player
  · cases sk with
    | flyingSand =>
      unfold useSkill
      simp only [hc, not_true_eq_false, if_false]
      split_ifs <;> simp [su_get_set_true _ _ _ _ _ h, h]
    | mountainMover =>
      unfold useSkill
      simp only [hc, not_true_eq_false, if_false]
      split_ifs <;> simp [su_get_set_true _ _ _ _ _ h, h]
    | timeRewind =>
      have hf : (useSkill gs Skill.timeRewind player sp se).1 = false :=
        hnr.resolve_left (by simp)
      have hu : useSkill gs Skill.timeRewind player sp se =
          if (timeRewind gs).1 then
            (true, { (timeRewind gs).2 with
              skillsUsed := (timeRewind gs).2.skillsUsed.set player Skill.timeRewind true })
          else timeRewind gs := by
        unfold useSkill
        simp [hc]
      rcases hb : (timeRewind gs).1 with _ | _
      · rw [hu, hb]
        simp [timeRewind_fail_skillsUsed gs hb, h]
      · rw [hu, hb] at hf
        simp at hf
  · simp [useSkill, hc, h]

/-- Player move operations never touch the usage record. -/
theorem handlePlayerMove_skillsUsed (gs : GameState) (x y : Int) :
    (handlePlayerMove gs x y).2.skillsUsed = gs.skillsUsed := by
  unfold handlePlayerMove
  split_ifs <;>
    simp [checkGameEnd_skillsUsed, saveCurrentState_skillsUsed, switchTurn_skillsUsed]
  split_ifs <;>
    simp [checkGameEnd_skillsUsed, saveCurrentState_skillsUsed, switchTurn_skillsUsed]

/-- AI move application never touches the usage record. -/
theorem aiApplyMove_skillsUsed (gs : GameState) (x y : Int) :
    (aiApplyMove gs x y).skillsUsed = gs.skillsUsed := by
  unfold aiApplyMove
  split_ifs <;>
    simp [checkGameEnd_skillsUsed, saveCurrentState_skillsUsed, switchTurn_skillsUsed]
  split_ifs <;>
    simp [checkGameEnd_skillsUsed, saveCurrentState_skillsUsed, switchTurn_skillsUsed]

/-- C3 (amended): a second useSkill call by a player for a skill whose flag
is already true fails and changes neither board, history nor usage record
(the whole state is returned untouched); and a player's usage flag, once
true, stays true across every game operation except a successful timeRewind,
which rewrites the usage record from the restored snapshot (and can thereby
reset flags that were set after that snapshot was taken). -/
theorem skill_once_per_player_amended :
    (∀ (gs : GameState) (sk : Skill) (player : Nat) (sp : List Piece)
        (se : List (Nat × Nat)),
      (gs.skillsUsed.get player).get sk = true →
      useSkill gs sk player sp se = (false, gs)) ∧
    (∀ (gs : GameState) (op : Op) (p : Nat) (k : Skill),
      (gs.skillsUsed.get p).get k = true →
      isSuccessfulRewind gs op = false →
      ((stepOp gs op).skillsUsed.get p).get k = true) := by
  refine ⟨useSkill_already_used, ?_⟩
  intro gs op p k h hnr
  cases op with
  | playerMove x y => simpa [stepOp, handlePlayerMove_skillsUsed] using h
  | aiMove x y => simpa [stepOp, aiApplyMove_skillsUsed] using h
  | playerSkill sk sp se =>
    show ((handleSkillUse gs sk sp se).skillsUsed.get p).get k = true
    unfold handleSkillUse
    split_ifs with h1 h2 h3
    · exact h
    · exact h
    case neg =>
      exact h
    case pos =>
      have hst : gs.gameStatus = GStatus.playing := not_ne_iff.mp h1
      have hpl : gs.currentPlayer = 1 := not_ne_iff.mp h2
      have hpres : ((useSkill gs sk 1 sp se).2.skillsUsed.get p).get k = true := by
        refine useSkill_flag_preserved gs sk 1 sp se p k h ?_
        cases sk with
        | flyingSand => exact Or.inl (by simp)
        | mountainMover => exact Or.inl (by simp)
        | timeRewind =>
          refine Or.inr ?_
          rcases hb : (useSkill gs Skill.timeRewind 1 sp se).1 with _ | _
          · rfl
          · have hT : isSuccessfulRewind gs (Op.playerSkill Skill.timeRewind sp se) = true := by
              unfold isSuccessfulRewind
              simp [hst, hpl, hb]
            simp [hT] at hnr
      by_cases hr : (useSkill gs sk 1 sp se).1 = true <;>
        simp [hr, checkGameEnd_skillsUsed, saveCurrentState_skillsUsed, hpres]
  | aiSkill sk sp se =>
    show ((aiUseSkill gs sk sp se).skillsUsed.get p).get k = true
    unfold aiUseSkill
    split_ifs with h1
    · exact h
    · rw [not_or] at h1
      have hst : gs.gameStatus = GStatus.playing := not_ne_iff.mp h1.1
      have hpl : gs.currentPlayer = 2 := not_ne_iff.mp h1.2
      have hpres : ((useSkill gs sk 2 sp se).2.skillsUsed.get p).get k = true := by
        refine useSkill_flag_preserved gs sk 2 sp se p k h ?_
        cases sk with
        | flyingSand => exact Or.inl (by simp)
        | mountainMover => exact Or.inl (by simp)
        | timeRewind =>
          refine Or.inr ?_
          rcases hb : (useSkill gs Skill.timeRewind 2 sp se).1 with _ | _
          · rfl
          · have hT : isSuccessfulRewind gs (Op.aiSkill Skill.timeRewind sp se) = true := by
              unfold isSuccessfulRewind
              simp [hst, hpl, hb]
            simp [hT] at hnr
      by_cases hr : (useSkill gs sk 2 sp se).1 = true <;>
        simp [hr, checkGameEnd_skillsUsed, saveCurrentState_skillsUsed, hpres]

/-- Witness for the amended C3 at a concrete state: the human has used
flyingSand; a second flyingSand call fails and returns the state unchanged,
and a subsequent player move keeps the flag true. -/
theorem skill_once_per_player_amended_witness :
    useSkill { startNewGame with
        skillsUsed := ⟨⟨true, false, false⟩, ⟨false, false, false⟩⟩ }
      Skill.flyingSand 1 [] [] =
      (false, { startNewGame with
        skillsUsed := ⟨⟨true, false, false⟩, ⟨false, false, false⟩⟩ }) ∧
    ((stepOp { startNewGame with
        skillsUsed := ⟨⟨true, false, false⟩, ⟨false, false, false⟩⟩ }
      (Op.playerMove 3 3)).skillsUsed.get 1).get Skill.flyingSand = true :=
  ⟨skill_once_per_player_amended.1 _ Skill.flyingSand 1 [] [] rfl,
   skill_once_per_player_amended.2 _ (Op.playerMove 3 3) 1 Skill.flyingSand rfl rfl⟩

/-! ## Counting lemmas -/

theorem getPieceCount_eq_countCells (b : Board) :
    getPieceCount b = countCells b (· ≠ 0) := rfl

theorem playerPieceCount_eq_countCells (b : Board) (p : Nat) :
    playerPieceCount b p = countCells b (· = p) := rfl

/-- Replacing a function at a single element of a duplicate-free list shifts
the filter length by the indicator difference at that element. -/
theorem length_filter_pointwise {α : Type} [DecidableEq α] (l : List α)
    (hl : l.Nodup) (a : α) (ha : a ∈ l) (g g' : α → Bool)
    (hgg : ∀ x ∈ l, x ≠ a → g' x = g x) :
    (l.filter g').length + (if g a then 1 else 0)
      = (l.filter g).length + (if g' a then 1 else 0) := by
  induction l with
  | nil => cases ha
  | cons c t ih =>
    rcases List.mem_cons.mp ha with rfl | hat
    · have htail : t.filter g' = t.filter g := by
        refine List.filter_congr fun x hx => ?_
        exact hgg x (List.mem_cons_of_mem _ hx) (fun hxa => (List.nodup_cons.mp hl).1 (hxa ▸ hx))
      simp only [List.filter_cons, htail]
      rcases hga : g a <;> rcases hga' : g' a <;> simp [hga, hga']
    · have hca : c ≠ a := fun hca => (List.nodup_cons.mp hl).1 (hca ▸ hat)
      have hgc : g' c = g c := hgg c (List.mem_cons_self c t) hca
      have := ih (List.nodup_cons.mp hl).2 hat fun x hx hxa =>
        hgg x (List.mem_cons_of_mem _ hx) hxa
      simp only [List.filter_cons, hgc]
      rcases hc : g c <;> simp [hc] <;> omega

/-- Same as `length_filter_pointwise` for a sum over a mapped list. -/
theorem sum_map_pointwise {α : Type} [DecidableEq α] (l : List α)
    (hl : l.Nodup) (a : α) (ha : a ∈ l) (f f' : α → Nat)
    (hff : ∀ x ∈ l, x ≠ a → f' x = f x) :
    (l.map f').sum + f a = (l.map f).sum + f' a := by
  induction l with
  | nil => cases ha
  | cons c t ih =>
    rcases List.mem_cons.mp ha with rfl | hat
    · have htail : t.map f' = t.map f := by
        refine List.map_congr_left fun x hx => ?_
        exact hff x (List.mem_cons_of_mem _ hx) (fun hxa => (List.nodup_cons.mp hl).1 (hxa ▸ hx))
      simp only [List.map_cons, List.sum_cons, htail]
      omega
    · have hca : c ≠ a := fun hca => (List.nodup_cons.mp hl).1 (hca ▸ hat)
      have hfc : f' c = f c := hff c (List.mem_cons_self c t) hca
      have := ih (List.nodup_cons.mp hl).2 hat fun x hx hxa =>
        hff x (List.mem_cons_of_mem _ hx) hxa
      simp only [List.map_cons, List.sum_cons, hfc]
      omega

/-- Effect of a single cell update on a cell count. -/
theorem countCells_setCell (b : Board) (x0 y0 : Nat) (hx : x0 < b.size)
    (hy : y0 < b.size) (v : Nat) (P : Nat → Prop) [DecidablePred P] :
    countCells (setCell b x0 y0 v) P + (if P (b.cell x0 y0) then 1 else 0)
      = countCells b P + (if P v then 1 else 0) := by
  unfold countCells
  have hrow : ∀ x ∈ List.range b.size, x ≠ x0 →
      (fun x => ((List.range b.size).filter fun y =>
        decide (P ((setCell b x0 y0 v).cell x y))).length) x
      = (fun x => ((List.range b.size).filter fun y =>
        decide (P (b.cell x y))).length) x := by
    intro x _ hxx
    have : ∀ y ∈ List.range b.size,
        (fun y => decide (P ((setCell b x0 y0 v).cell x y)))  y
        = (fun y => decide (P (b.cell x y))) y := by
      intro y _
      simp [setCell, hxx]
    simp only [List.filter_congr this]
  have hsum := sum_map_pointwise (List.range b.size) (List.nodup_range b.size)
    x0 (List.mem_range.mpr hx)
    (fun x => ((List.range b.size).filter fun y => decide (P (b.cell x y))).length)
    (fun x => ((List.range b.size).filter fun y =>
      decide (P ((setCell b x0 y0 v).cell x y))).length)
    hrow
  have hcell := length_filter_pointwise (List.range b.size) (List.nodup_range b.size)
    y0 (List.mem_range.mpr hy)
    (fun y => decide (P (b.cell x0 y)))
    (fun y => decide (P ((setCell b x0 y0 v).cell x0 y)))
    (by
      intro y _ hyy
      simp [setCell, hyy])
  have hnew : (setCell b x0 y0 v).cell x0 y0 = v := by simp [setCell]
  simp only [hnew, decide_eq_true_eq] at hcell
  simp only [setCell] at hsum hcell ⊢
  omega

/-! ## Enumeration lemmas -/

theorem setCell_size (b : Board) (x y v : Nat) : (setCell b x y v).size = b.size := rfl

theorem setCell_cell_self (b : Board) (x y v : Nat) : (setCell b x y v).cell x y = v := by
  simp [setCell]

theorem setCell_cell_of_ne (b : Board) (x0 y0 v i j : Nat) (h : ¬ (i = x0 ∧ j = y0)) :
    (setCell b x0 y0 v).cell i j = b.cell i j := by
  simp [setCell, h]

theorem removePiece_natCast (b : Board) (x y : Nat) (hx : x < b.size) (hy : y < b.size) :
    removePiece b (x : Int) (y : Int) = (b.cell x y, setCell b x y 0) := by
  have hv : isValidPos b (x : Int) (y : Int) :=
    ⟨Int.natCast_nonneg x, by exact_mod_cast hx, Int.natCast_nonneg y, by exact_mod_cast hy⟩
  simp [removePiece, hv, cellAt]

theorem placePiece_natCast (b : Board) (x y : Nat) (hx : x < b.size) (hy : y < b.size)
    (he : b.cell x y = 0) (p : Nat) :
    placePiece b (x : Int) (y : Int) p = (true, setCell b x y p) := by
  have hv : isValidPos b (x : Int) (y : Int) :=
    ⟨Int.natCast_nonneg x, by exact_mod_cast hx, Int.natCast_nonneg y, by exact_mod_cast hy⟩
  simp [placePiece, hv, cellAt, he]

theorem mem_getEmptyPositions (b : Board) (x y : Nat) :
    (x, y) ∈ getEmptyPositions b ↔ x < b.size ∧ y < b.size ∧ b.cell x y = 0 := by
  simp [getEmptyPositions]

theorem mem_getAllPieces (b : Board) (pc : Piece) :
    pc ∈ getAllPieces b ↔
      pc.x < b.size ∧ pc.y < b.size ∧ b.cell pc.x pc.y ≠ 0 ∧
        pc.player = b.cell pc.x pc.y := by
  rcases pc with ⟨x, y, p⟩
  simp [getAllPieces]
  aesop

theorem lexLt_ne (p q : Nat × Nat) (h : lexLt p q) : p ≠ q := by
  rintro rfl
  rcases h with h | ⟨-, h⟩ <;> omega

/-- The canonical row-major enumeration pattern is pairwise `lexLt`. -/
theorem pairwise_lex_flatMap (l : List Nat) (hl : List.Pairwise (· < ·) l)
    (f : Nat → List Nat) (hf : ∀ x, List.Pairwise (· < ·) (f x)) :
    List.Pairwise lexLt (l.flatMap fun x => (f x).map fun y => (x, y)) := by
  induction l with
  | nil => simp
  | cons a t ih =>
    rw [List.flatMap_cons, List.pairwise_append]
    refine ⟨?_, ih (List.pairwise_cons.mp hl).2, ?_⟩
    · rw [List.pairwise_map]
      exact (hf a).imp fun h => Or.inr ⟨rfl, h⟩
    · intro p hp q hq
      rw [List.mem_map] at hp
      obtain ⟨z, -, rfl⟩ := hp
      rw [List.mem_flatMap] at hq
      obtain ⟨c, hc, hq⟩ := hq
      rw [List.mem_map] at hq
      obtain ⟨w, -, rfl⟩ := hq
      exact Or.inl ((List.pairwise_cons.mp hl).1 c hc)

theorem getEmptyPositions_pairwise (b : Board) :
    List.Pairwise lexLt (getEmptyPositions b) :=
  pairwise_lex_flatMap _ (List.sorted_lt_range _) _
    (fun _ => List.Pairwise.sublist (List.filter_sublist _) (List.sorted_lt_range _))

theorem getEmptyPositions_nodup (b : Board) : (getEmptyPositions b).Nodup :=
  (getEmptyPositions_pairwise b).imp fun h => lexLt_ne _ _ h

theorem getAllPieces_coords (b : Board) :
    (getAllPieces b).map (fun pc => (pc.x, pc.y)) =
      (List.range b.size).flatMap fun x =>
        ((List.range b.size).filter fun y => b.cell x y ≠ 0).map fun y => (x, y) := by
  simp only [getAllPieces, List.map_flatMap, List.map_map]
  rfl

theorem getAllPieces_coords_nodup (b : Board) :
    ((getAllPieces b).map fun pc => (pc.x, pc.y)).Nodup := by
  rw [getAllPieces_coords]
  exact (pairwise_lex_flatMap _ (List.sorted_lt_range _) _
    (fun _ => List.Pairwise.sublist (List.filter_sublist _) (List.sorted_lt_range _))).imp
    fun h => lexLt_ne _ _ h

theorem getAllPieces_length (b : Board) :
    (getAllPieces b).length = getPieceCount b := by
  simp [getAllPieces, getPieceCount, List.length_flatMap, List.map_map, Function.comp_def]

/-! ## Removal and placement phase lemmas -/

theorem removePhase_spec (ps : List Piece) (b : Board)
    (hval : ∀ pc ∈ ps, pc.x < b.size ∧ pc.y < b.size)
    (hnd : (ps.map fun pc => (pc.x, pc.y)).Nodup) :
    (removePhase b ps).2.size = b.size ∧
    (removePhase b ps).1 = ps.map (fun pc => ⟨pc.x, pc.y, b.cell pc.x pc.y⟩) ∧
    (∀ i j : Nat, (removePhase b ps).2.cell i j =
      if (i, j) ∈ ps.map (fun pc => (pc.x, pc.y)) then 0 else b.cell i j) := by
  induction ps generalizing b with
  | nil => simp [removePhase]
  | cons pc rest ih =>
    obtain ⟨hx, hy⟩ := hval pc (List.mem_cons_self pc rest)
    rw [List.map_cons, List.nodup_cons] at hnd
    have hrw := removePiece_natCast b pc.x pc.y hx hy
    have hval1 : ∀ q ∈ rest, q.x < (setCell b pc.x pc.y 0).size ∧
        q.y < (setCell b pc.x pc.y 0).size := by
      intro q hq
      exact hval q (List.mem_cons_of_mem pc hq)
    have hcells : ∀ q ∈ rest, (setCell b pc.x pc.y 0).cell q.x q.y = b.cell q.x q.y := by
      intro q hq
      refine setCell_cell_of_ne b pc.x pc.y 0 q.x q.y ?_
      rintro ⟨h1, h2⟩
      exact hnd.1 (by
        rw [show (pc.x, pc.y) = (q.x, q.y) by rw [h1, h2]]
        exact List.mem_map_of_mem _ hq)
    obtain ⟨ihs, ihr, ihc⟩ := ih (setCell b pc.x pc.y 0) hval1 hnd.2
    refine ⟨?_, ?_, ?_⟩
    · simp only [removePhase, hrw]
      exact ihs
    · simp only [removePhase, hrw, List.map_cons]
      rw [ihr]
      refine congrArg _ (List.map_congr_left fun q hq => ?_)
      rw [hcells q hq]
    · intro i j
      simp only [removePhase, hrw, List.map_cons, List.mem_cons]
      rw [ihc i j]
      by_cases hmem : (i, j) ∈ rest.map fun q => (q.x, q.y)
      · simp [hmem]
      · by_cases hij : (i, j) = (pc.x, pc.y)
        · rw [Prod.mk.injEq] at hij
          obtain ⟨rfl, rfl⟩ := hij
          simp [hmem, setCell_cell_self]
        · simp only [hmem, if_false, hij, false_or, if_neg hij]
          exact setCell_cell_of_ne b pc.x pc.y 0 i j
            (by rintro ⟨h1, h2⟩; exact hij (by rw [h1, h2]))

theorem removePhase_count (ps : List Piece) (b : Board)
    (hval : ∀ pc ∈ ps, pc.x < b.size ∧ pc.y < b.size)
    (hnd : (ps.map fun pc => (pc.x, pc.y)).Nodup)
    (P : Nat → Prop) [DecidablePred P] (hP0 : ¬ P 0) :
    countCells (removePhase b ps).2 P
      + (ps.filter fun pc => decide (P (b.cell pc.x pc.y))).length
      = countCells b P := by
  induction ps generalizing b with
  | nil => simp [removePhase]
  | cons pc rest ih =>
    obtain ⟨hx, hy⟩ := hval pc (List.mem_cons_self pc rest)
    rw [List.map_cons, List.nodup_cons] at hnd
    have hrw := removePiece_natCast b pc.x pc.y hx hy
    have hval1 : ∀ q ∈ rest, q.x < (setCell b pc.x pc.y 0).size ∧
        q.y < (setCell b pc.x pc.y 0).size := by
      intro q hq
      exact hval q (List.mem_cons_of_mem pc hq)
    have hcells : ∀ q ∈ rest, (setCell b pc.x pc.y 0).cell q.x q.y = b.cell q.x q.y := by
      intro q hq
      refine setCell_cell_of_ne b pc.x pc.y 0 q.x q.y ?_
      rintro ⟨h1, h2⟩
      exact hnd.1 (by
        rw [show (pc.x, pc.y) = (q.x, q.y) by rw [h1, h2]]
        exact List.mem_map_of_mem _ hq)
    have hstep := countCells_setCell b pc.x pc.y hx hy 0 P
    rw [if_neg hP0] at hstep
    have ihh := ih (setCell b pc.x pc.y 0) hval1 hnd.2
    have hfe : (rest.filter fun q =>
        decide (P ((setCell b pc.x pc.y 0).cell q.x q.y))).length
        = (rest.filter fun q => decide (P (b.cell q.x q.y))).length := by
      rw [List.filter_congr fun q hq => by rw [hcells q hq]]
    simp only [removePhase, hrw, List.filter_cons]
    rw [hfe] at ihh
    by_cases hh : P (b.cell pc.x pc.y)
    · rw [if_pos hh] at hstep
      rw [if_pos (show decide (P (b.cell pc.x pc.y)) = true by simpa using hh)]
      simp only [List.length_cons]
      omega
    · rw [if_neg hh] at hstep
      rw [if_neg (show ¬ decide (P (b.cell pc.x pc.y)) = true by simpa using hh)]
      omega

theorem placePhase_spec (prs : List (Piece × (Nat × Nat))) (b : Board)
    (hval : ∀ pr ∈ prs, pr.2.1 < b.size ∧ pr.2.2 < b.size)
    (hempty : ∀ pr ∈ prs, b.cell pr.2.1 pr.2.2 = 0)
    (hnd : (prs.map (fun pr => pr.2)).Nodup) :
    (placePhase b prs).size = b.size ∧
    (∀ i j : Nat, (i, j) ∉ prs.map (fun pr => pr.2) →
      (placePhase b prs).cell i j = b.cell i j) ∧
    (∀ (P : Nat → Prop) [DecidablePred P], ¬ P 0 →
      countCells (placePhase b prs) P
        = countCells b P + (prs.filter fun pr => decide (P pr.1.player)).length) := by
  induction prs generalizing b with
  | nil => simp [placePhase]
  | cons pr rest ih =>
    obtain ⟨hx, hy⟩ := hval pr (List.mem_cons_self pr rest)
    have hemp := hempty pr (List.mem_cons_self pr rest)
    rw [List.map_cons, List.nodup_cons] at hnd
    have hrw := placePiece_natCast b pr.2.1 pr.2.2 hx hy hemp pr.1.player
    have hb1 : ∀ q ∈ rest, (setCell b pr.2.1 pr.2.2 pr.1.player).cell q.2.1 q.2.2
        = b.cell q.2.1 q.2.2 := by
      intro q hq
      refine setCell_cell_of_ne _ _ _ _ _ _ ?_
      rintro ⟨h1, h2⟩
      refine hnd.1 ?_
      have : pr.2 = q.2 := by
        rcases pr with ⟨pc1, x1, y1⟩
        rcases q with ⟨pc2, x2, y2⟩
        simp at h1 h2
        simp [h1, h2]
      rw [this]
      exact List.mem_map_of_mem _ hq
    have hval1 : ∀ q ∈ rest, q.2.1 < (setCell b pr.2.1 pr.2.2 pr.1.player).size ∧
        q.2.2 < (setCell b pr.2.1 pr.2.2 pr.1.player).size := by
      intro q hq
      exact hval q (List.mem_cons_of_mem pr hq)
    have hempty1 : ∀ q ∈ rest,
        (setCell b pr.2.1 pr.2.2 pr.1.player).cell q.2.1 q.2.2 = 0 := by
      intro q hq
      rw [hb1 q hq]
      exact hempty q (List.mem_cons_of_mem pr hq)
    obtain ⟨ihs, ihc, ihn⟩ := ih (setCell b pr.2.1 pr.2.2 pr.1.player) hval1 hempty1 hnd.2
    refine ⟨?_, ?_, ?_⟩
    · simp only [placePhase, hrw]
      exact ihs
    · intro i j hij
      rw [List.map_cons, List.mem_cons] at hij
      push_neg at hij
      simp only [placePhase, hrw]
      rw [ihc i j hij.2]
      refine setCell_cell_of_ne _ _ _ _ _ _ ?_
      rintro ⟨h1, h2⟩
      exact hij.1 (by rw [h1, h2])
    · intro P hP hP0
      simp only [placePhase, hrw]
      rw [ihn P hP0]
      have hstep := countCells_setCell b pr.2.1 pr.2.2 hx hy pr.1.player P
      rw [hemp, if_neg hP0] at hstep
      simp only [List.filter_cons]
      by_cases hp : P pr.1.player
      · rw [if_pos hp] at hstep
        rw [if_pos (show decide (P pr.1.player) = true by simpa using hp)]
        simp only [List.length_cons]
        omega
      · rw [if_neg hp] at hstep
        rw [if_neg (show ¬ decide (P pr.1.player) = true by simpa using hp)]
        omega

/-! ## C5: mountainMover -/

/-- C5: the Remove skill fails exactly on a board with zero stones; on
success the total count drops by exactly `min 3 totalBefore` (never going
negative), already-empty cells are never modified, and every changed cell
was occupied and is now empty. -/
theorem mountainMover_spec (b : Board) (sp : List Piece)
    (hperm : sp.Perm (getAllPieces b)) :
    ((mountainMover b sp).1 = false ↔ getPieceCount b = 0) ∧
    ((mountainMover b sp).1 = true →
      getPieceCount (mountainMover b sp).2
          = getPieceCount b - min 3 (getPieceCount b) ∧
      (∀ i j : Nat, b.cell i j = 0 → (mountainMover b sp).2.cell i j = 0) ∧
      (∀ i j : Nat, (mountainMover b sp).2.cell i j ≠ b.cell i j →
        b.cell i j ≠ 0 ∧ (mountainMover b sp).2.cell i j = 0)) := by
  have hlen : sp.length = (getAllPieces b).length := hperm.length_eq
  have htot : (getAllPieces b).length = getPieceCount b := getAllPieces_length b
  by_cases hz : (getAllPieces b).length = 0
  · constructor
    · simp [mountainMover, hz]
      omega
    · intro hs
      exfalso
      simp [mountainMover, hz] at hs
  · have hmm : mountainMover b sp =
        (true, (removePhase b (sp.take (min (min 3 (getAllPieces b).length) sp.length))).2) := by
      simp [mountainMover, hz]
    set selected := sp.take (min (min 3 (getAllPieces b).length) sp.length) with hseldef
    have hselmem : ∀ pc ∈ selected, pc ∈ getAllPieces b := by
      intro pc h
      exact hperm.subset ((List.take_sublist _ _).subset h)
    have hval : ∀ pc ∈ selected, pc.x < b.size ∧ pc.y < b.size := by
      intro pc h
      have := (mem_getAllPieces b pc).mp (hselmem pc h)
      exact ⟨this.1, this.2.1⟩
    have hocc : ∀ pc ∈ selected, b.cell pc.x pc.y ≠ 0 := by
      intro pc h
      exact ((mem_getAllPieces b pc).mp (hselmem pc h)).2.2.1
    have hnd : (selected.map fun pc => (pc.x, pc.y)).Nodup := by
      have h2 : (sp.map fun pc => (pc.x, pc.y)).Nodup :=
        ((hperm.map _).nodup_iff).mpr (getAllPieces_coords_nodup b)
      exact h2.sublist ((List.take_sublist _ _).map _)
    have hsellen : selected.length = min 3 (getPieceCount b) := by
      rw [hseldef, List.length_take]
      omega
    have htotc : (getAllPieces b).length = countCells b (· ≠ 0) := htot
    have hsellenc : selected.length = min 3 (countCells b (· ≠ 0)) := hsellen
    have hcnt := removePhase_count selected b hval hnd (· ≠ 0) (by simp)
    have hfilt : (selected.filter fun pc => decide (b.cell pc.x pc.y ≠ 0)) = selected :=
      List.filter_eq_self.mpr fun pc h => by simpa using hocc pc h
    rw [hfilt] at hcnt
    obtain ⟨-, -, hcells⟩ := removePhase_spec selected b hval hnd
    constructor
    · rw [hmm]
      simp only [Bool.true_eq_false, false_iff]
      rw [getPieceCount_eq_countCells]
      omega
    · intro _
      rw [hmm]
      refine ⟨?_, ?_, ?_⟩
      · rw [getPieceCount_eq_countCells, getPieceCount_eq_countCells]
        dsimp only
        omega
      · intro i j he
        rw [hcells i j]
        split <;> simp [he]
      · intro i j hne
        rw [hcells i j] at hne ⊢
        by_cases hmem : (i, j) ∈ selected.map fun pc => (pc.x, pc.y)
        · refine ⟨?_, by simp [hmem]⟩
          rw [List.mem_map] at hmem
          obtain ⟨pc, hpc, he⟩ := hmem
          have := hocc pc hpc
          rw [Prod.mk.injEq] at he
          rw [← he.1, ← he.2]
          exact this
        · simp [hmem] at hne

/-- Witness for C5 on a concrete one-stone board with the identity shuffle. -/
theorem mountainMover_spec_witness :
    (mountainMover wbOne (getAllPieces wbOne)).1 = true ∧
    getPieceCount (mountainMover wbOne (getAllPieces wbOne)).2
      = getPieceCount wbOne - min 3 (getPieceCount wbOne) :=
  ⟨by decide,
    ((mountainMover_spec wbOne (getAllPieces wbOne) (List.Perm.refl _)).2 (by decide)).1⟩

/-! ## C4: flyingSandStorm -/

/-- C4: when Scatter succeeds, the total stone count and every player's own
stone count are unchanged, and only the positions of `min 5 totalPieces`
stones change: there is a list of that many relocations outside whose source
and target cells the board is untouched. -/
theorem flyingSandStorm_spec (b : Board) (sp : List Piece) (se : List (Nat × Nat))
    (hp : sp.Perm (getAllPieces b)) (he : se.Perm (getEmptyPositions b))
    (hs : (flyingSandStorm b sp se).1 = true) :
    getPieceCount (flyingSandStorm b sp se).2 = getPieceCount b ∧
    (∀ q : Nat, q ≠ 0 →
      playerPieceCount (flyingSandStorm b sp se).2 q = playerPieceCount b q) ∧
    (∃ moved : List ((Nat × Nat) × (Nat × Nat)),
      moved.length = min 5 (getPieceCount b) ∧
      ∀ i j : Nat, (i, j) ∉ moved.map (fun m => m.1) →
        (i, j) ∉ moved.map (fun m => m.2) →
        (flyingSandStorm b sp se).2.cell i j = b.cell i j) := by
  have hlen : sp.length = (getAllPieces b).length := hp.length_eq
  have htot : (getAllPieces b).length = getPieceCount b := getAllPieces_length b
  have hselen : se.length = (getEmptyPositions b).length := he.length_eq
  by_cases hz : (getAllPieces b).length = 0
  · exfalso
    simp [flyingSandStorm, hz] at hs
  set selected := sp.take (min (min 5 (getAllPieces b).length) sp.length) with hseldef
  by_cases hge : (getEmptyPositions b).length < selected.length
  · exfalso
    simp only [flyingSandStorm, if_neg hz, ← hseldef] at hs
    rw [if_pos hge] at hs
    cases hs
  set recs := (removePhase b selected).1 with hrecsdef
  set newPos := se.take (min recs.length se.length) with hnpdef
  have hmm : flyingSandStorm b sp se =
      (true, placePhase (removePhase b selected).2 (recs.zip newPos)) := by
    simp only [flyingSandStorm, if_neg hz, ← hseldef, if_neg hge, ← hrecsdef, ← hnpdef]
  -- facts about the selected pieces
  have hselmem : ∀ pc ∈ selected, pc ∈ getAllPieces b := by
    intro pc h
    exact hp.subset ((List.take_sublist _ _).subset h)
  have hval : ∀ pc ∈ selected, pc.x < b.size ∧ pc.y < b.size := by
    intro pc h
    have := (mem_getAllPieces b pc).mp (hselmem pc h)
    exact ⟨this.1, this.2.1⟩
  have hocc : ∀ pc ∈ selected, b.cell pc.x pc.y ≠ 0 := by
    intro pc h
    exact ((mem_getAllPieces b pc).mp (hselmem pc h)).2.2.1
  have hnd : (selected.map fun pc => (pc.x, pc.y)).Nodup := by
    have h2 : (sp.map fun pc => (pc.x, pc.y)).Nodup :=
      ((hp.map _).nodup_iff).mpr (getAllPieces_coords_nodup b)
    exact h2.sublist ((List.take_sublist _ _).map _)
  have hsellen : selected.length = min 5 (getPieceCount b) := by
    rw [hseldef, List.length_take]
    omega
  obtain ⟨hrs, hrr, hrc⟩ := removePhase_spec selected b hval hnd
  have hreclen : recs.length = selected.length := by
    rw [hrecsdef, hrr, List.length_map]
  have hnplen : newPos.length = selected.length := by
    rw [hnpdef, List.length_take]
    omega
  have hziplen : (recs.zip newPos).length = selected.length := by
    rw [List.length_zip]
    omega
  -- facts about the new positions
  have hnpmem : ∀ pos ∈ newPos, pos ∈ getEmptyPositions b := by
    intro pos h
    exact he.subset ((List.take_sublist _ _).subset h)
  have hnpempty : ∀ pos ∈ newPos, b.cell pos.1 pos.2 = 0 := by
    intro pos h
    have := (mem_getEmptyPositions b pos.1 pos.2).mp (by simpa using hnpmem pos h)
    exact this.2.2
  have hnpval : ∀ pos ∈ newPos, pos.1 < b.size ∧ pos.2 < b.size := by
    intro pos h
    have := (mem_getEmptyPositions b pos.1 pos.2).mp (by simpa using hnpmem pos h)
    exact ⟨this.1, this.2.1⟩
  have hnpnodup : newPos.Nodup := by
    have h2 : se.Nodup := (he.nodup_iff).mpr (getEmptyPositions_nodup b)
    exact h2.sublist (List.take_sublist _ _)
  have hsnd : (recs.zip newPos).map (fun pr => pr.2) = newPos := by
    refine List.map_snd_zip recs newPos ?_
    omega
  have hfst : (recs.zip newPos).map (fun pr => pr.1) = recs := by
    refine List.map_fst_zip recs newPos ?_
    omega
  -- placePhase preconditions on the post-removal board
  set b2 := (removePhase b selected).2 with hb2def
  have hvalP : ∀ pr ∈ recs.zip newPos, pr.2.1 < b2.size ∧ pr.2.2 < b2.size := by
    intro pr hpr
    have hmem := (List.of_mem_zip hpr).2
    have := hnpval pr.2 hmem
    rw [hrs]
    exact this
  have hemptyP : ∀ pr ∈ recs.zip newPos, b2.cell pr.2.1 pr.2.2 = 0 := by
    intro pr hpr
    have hmem := (List.of_mem_zip hpr).2
    rw [hb2def, hrc]
    split
    · rfl
    · exact hnpempty pr.2 hmem
  have hndP : ((recs.zip newPos).map (fun pr => pr.2)).Nodup := by
    rw [hsnd]
    exact hnpnodup
  obtain ⟨hps, hpc, hpcount⟩ := placePhase_spec (recs.zip newPos) b2 hvalP hemptyP hndP
  -- count bookkeeping for an arbitrary predicate with ¬ P 0
  have hcount : ∀ (P : Nat → Prop) [DecidablePred P], ¬ P 0 →
      countCells (placePhase b2 (recs.zip newPos)) P = countCells b P := by
    intro P hP hP0
    have h1 := hpcount P hP0
    have h2 := removePhase_count selected b hval hnd P hP0
    rw [← hb2def] at h2
    have h3 : ((recs.zip newPos).filter fun pr => decide (P pr.1.player)).length
        = (selected.filter fun pc => decide (P (b.cell pc.x pc.y))).length := by
      rw [← List.countP_eq_length_filter, ← List.countP_eq_length_filter]
      have h4 : List.countP (fun pr => decide (P pr.1.player)) (recs.zip newPos)
          = List.countP (fun pc => decide (P pc.player)) ((recs.zip newPos).map (fun pr => pr.1)) := by
        rw [List.countP_map]
        rfl
      rw [h4, hfst, hrecsdef, hrr, List.countP_map]
      rfl
    rw [h1, h3]
    omega
  refine ⟨?_, ?_, ?_⟩
  · rw [hmm]
    rw [getPieceCount_eq_countCells, getPieceCount_eq_countCells]
    exact hcount (· ≠ 0) (by simp)
  · intro q hq
    rw [hmm]
    rw [playerPieceCount_eq_countCells, playerPieceCount_eq_countCells]
    exact hcount (· = q) (fun h => hq h.symm)
  · have hmoved2 : (((recs.zip newPos).map (fun pr => ((pr.1.x, pr.1.y), pr.2))).map
        (fun m => m.2)) = (recs.zip newPos).map (fun pr => pr.2) := by
      rw [List.map_map]
      rfl
    have hmoved1 : (((recs.zip newPos).map (fun pr => ((pr.1.x, pr.1.y), pr.2))).map
        (fun m => m.1)) = selected.map (fun pc => (pc.x, pc.y)) := by
      rw [List.map_map]
      have hstep : (recs.zip newPos).map ((fun m : (Nat × Nat) × (Nat × Nat) => m.1) ∘
          (fun pr : Piece × (Nat × Nat) => ((pr.1.x, pr.1.y), pr.2)))
          = ((recs.zip newPos).map (fun pr => pr.1)).map (fun pc => (pc.x, pc.y)) := by
        rw [List.map_map]
        rfl
      rw [hstep, hfst, hrecsdef, hrr, List.map_map]
      rfl
    refine ⟨(recs.zip newPos).map (fun pr => ((pr.1.x, pr.1.y), pr.2)), ?_, ?_⟩
    · rw [List.length_map, hziplen, hsellen]
    · intro i j hm1 hm2
      rw [hmoved1] at hm1
      rw [hmoved2] at hm2
      rw [hmm]
      rw [hpc i j hm2]
      rw [hb2def, hrc i j, if_neg hm1]

/-- Witness for C4 on a concrete one-stone board with identity shuffles. -/
theorem flyingSandStorm_spec_witness :
    (flyingSandStorm wbOne (getAllPieces wbOne) (getEmptyPositions wbOne)).1 = true ∧
    getPieceCount (flyingSandStorm wbOne (getAllPieces wbOne)
      (getEmptyPositions wbOne)).2 = getPieceCount wbOne :=
  ⟨by decide,
    (flyingSandStorm_spec wbOne (getAllPieces wbOne) (getEmptyPositions wbOne)
      (List.Perm.refl _) (List.Perm.refl _) (by decide)).1⟩

/-! ## C7: deterministic tie-break in move scoring -/

/-- Stability of the modelled JS sort: the entries carrying any fixed score
appear in the sorted list exactly in their original order. -/
theorem insertionSort_filter_score (l : List ((Nat × Nat) × ℚ)) (s : ℚ) :
    (List.insertionSort scoreGe l).filter (fun m => m.2 = s)
      = l.filter (fun m => m.2 = s) := by
  have hperm := List.perm_insertionSort scoreGe l
  set c := l.filter (fun m => m.2 = s) with hcdef
  have hcs : ∀ m ∈ c, m.2 = s := by
    intro m hm
    have := List.of_mem_filter hm
    simpa using this
  have hcpair : c.Pairwise scoreGe := by
    refine List.pairwise_of_forall_mem_list ?_
    intro a ha c2 hc2
    unfold scoreGe
    rw [hcs a ha, hcs c2 hc2]
  have hcsub : c.Sublist (List.insertionSort scoreGe l) :=
    List.sublist_insertionSort hcpair (List.filter_sublist l)
  have hcsub2 : c.Sublist ((List.insertionSort scoreGe l).filter (fun m => m.2 = s)) := by
    have hcf : c.filter (fun m => decide (m.2 = s)) = c :=
      List.filter_eq_self.mpr fun a ha => by simp [hcs a ha]
    have := hcsub.filter (fun m => decide (m.2 = s))
    rwa [hcf] at this
  have hlen : ((List.insertionSort scoreGe l).filter (fun m => m.2 = s)).length = c.length := by
    rw [hcdef, ← List.countP_eq_length_filter, ← List.countP_eq_length_filter]
    exact hperm.countP_eq _
  exact (hcsub2.eq_of_length hlen.symm).symm

/-- C7: when every candidate cell is scored (no mistake draw), the sort is
stable, so equal-score candidates keep the row-major enumeration order of
getEmptyPositions (which is lexicographically ordered), and the selected
move is the row-major-first candidate among those of maximal score. -/
theorem tie_break_row_major (b : Board) (f : (Nat × Nat) → ℚ) :
    List.Pairwise lexLt (getEmptyPositions b) ∧
    (∀ s : ℚ, (sortedScoredMoves (getEmptyPositions b) f).filter (fun m => m.2 = s)
      = ((getEmptyPositions b).map (fun pos => (pos, f pos))).filter (fun m => m.2 = s)) ∧
    (∀ mIdx : Nat, ∀ m : (Nat × Nat) × ℚ,
      pickMove (sortedScoredMoves (getEmptyPositions b) f) false mIdx = some m →
      m.1 ∈ getEmptyPositions b ∧ m.2 = f m.1 ∧
      (∀ pos ∈ getEmptyPositions b, f pos ≤ m.2) ∧
      (((getEmptyPositions b).map (fun pos => (pos, f pos))).filter
        (fun m2 => m2.2 = m.2)).head? = some m) := by
  refine ⟨getEmptyPositions_pairwise b, ?_, ?_⟩
  · intro s
    exact insertionSort_filter_score _ s
  · intro mIdx m hm
    unfold pickMove at hm
    simp only [Bool.false_eq_true, if_false] at hm
    unfold sortedScoredMoves at hm
    set moves := (getEmptyPositions b).map (fun pos => (pos, f pos)) with hmovesdef
    have hperm := List.perm_insertionSort scoreGe moves
    have hsorted := List.sorted_insertionSort scoreGe moves
    rcases hsl : List.insertionSort scoreGe moves with _ | ⟨hd, tl⟩
    · rw [hsl] at hm
      cases hm
    · rw [hsl] at hm
      have hdm : hd = m := by simpa using hm
      rw [hdm] at hsl
      have hmem : m ∈ moves := by
        refine hperm.subset ?_
        rw [hsl]
        exact List.mem_cons_self m tl
      have hm1 : m.1 ∈ getEmptyPositions b ∧ m.2 = f m.1 := by
        rw [hmovesdef] at hmem
        rw [List.mem_map] at hmem
        obtain ⟨pos, hpos, he⟩ := hmem
        rw [← he]
        exact ⟨hpos, rfl⟩
      have hmax : ∀ pos ∈ getEmptyPositions b, f pos ≤ m.2 := by
        intro pos hpos
        have hpm : (pos, f pos) ∈ moves := by
          rw [hmovesdef]
          exact List.mem_map_of_mem _ hpos
        have : (pos, f pos) ∈ List.insertionSort scoreGe moves := hperm.mem_iff.mpr hpm
        rw [hsl, List.mem_cons] at this
        rcases this with he | htl
        · rw [← he]
        · rw [hsl] at hsorted
          exact List.rel_of_sorted_cons hsorted _ htl
      refine ⟨hm1.1, hm1.2, hmax, ?_⟩
      have hstab := insertionSort_filter_score moves m.2
      rw [hsl] at hstab
      rw [← hstab]
      rw [List.filter_cons]
      simp

/-- Witness for C7 on a concrete board with an all-equal score function: the
selected move is the row-major-first empty cell. -/
theorem tie_break_row_major_witness :
    ((0, 1), (0 : ℚ)).1 ∈ getEmptyPositions wbOne ∧
    (((getEmptyPositions wbOne).map (fun pos => (pos, (0 : ℚ)))).filter
      (fun m2 => m2.2 = ((0, 1), (0 : ℚ)).2)).head? = some ((0, 1), 0) :=
  ⟨((tie_break_row_major wbOne (fun _ => 0)).2.2 0 ((0, 1), 0) (by decide)).1,
   ((tie_break_row_major wbOne (fun _ => 0)).2.2 0 ((0, 1), 0) (by decide)).2.2.2⟩

/-! ## C10: getBestMove safety -/

theorem getEmptyPositions_length_le (b : Board) :
    (getEmptyPositions b).length ≤ b.size * b.size := by
  rw [getEmptyPositions, List.length_flatMap]
  have hb : ∀ x ∈ (List.range b.size).map (List.length ∘ fun x =>
      ((List.range b.size).filter fun y => b.cell x y = 0).map fun y => (x, y)),
      x ≤ b.size := by
    intro x hx
    rw [List.mem_map] at hx
    obtain ⟨a, -, rfl⟩ := hx
    simp only [Function.comp_apply, List.length_map]
    calc (((List.range b.size).filter fun y => b.cell a y = 0)).length
        ≤ (List.range b.size).length := List.length_filter_le _ _
      _ = b.size := List.length_range b.size
  calc ((List.range b.size).map (List.length ∘ fun x =>
        ((List.range b.size).filter fun y => b.cell x y = 0).map fun y => (x, y))).sum
      ≤ ((List.range b.size).map (List.length ∘ fun x =>
        ((List.range b.size).filter fun y => b.cell x y = 0).map fun y => (x, y))).length
          • b.size := List.sum_le_card_nsmul _ _ hb
    _ = b.size * b.size := by simp [List.length_map, List.length_range]

theorem mem_of_getElemQ {α : Type} {l : List α} {n : Nat} {a : α}
    (h : l[n]? = some a) : a ∈ l := by
  obtain ⟨hn, he⟩ := List.getElem?_eq_some_iff.mp h
  rw [← he]
  exact l.getElem_mem hn

/-- SmartAI.getOpeningMove always yields an in-bounds empty cell when the
board has at least 220 empty cells (which forces size ≥ 15, covering the
nine fixed opening cells). -/
theorem getOpeningMove_spec (b : Board) (openIdx : Nat)
    (hlen : 220 ≤ (getEmptyPositions b).length) :
    ∃ m, getOpeningMove b openIdx = some m ∧ m ∈ getEmptyPositions b := by
  have hsz : 15 ≤ b.size := by
    have h1 := getEmptyPositions_length_le b
    by_contra hlt
    push_neg at hlt
    have : b.size * b.size ≤ 14 * 14 :=
      Nat.mul_le_mul (by omega) (by omega)
    omega
  unfold getOpeningMove
  rcases hf : openingMoves.find? (fun m => b.cell m.1 m.2 = 0) with _ | m
  · have hne : (getEmptyPositions b).length ≠ 0 := by omega
    have hidx : openIdx % (getEmptyPositions b).length < (getEmptyPositions b).length :=
      Nat.mod_lt _ (by omega)
    rcases hg : (getEmptyPositions b)[openIdx % (getEmptyPositions b).length]? with _ | m
    · rw [List.getElem?_eq_none_iff] at hg
      omega
    · refine ⟨m, ?_, mem_of_getElemQ hg⟩
      simp only [hf, hg]
  · refine ⟨m, by simp only [hf], ?_⟩
    have hmem := List.mem_of_find?_eq_some hf
    have hcell := List.find?_some hf
    have hbound : m.1 < b.size ∧ m.2 < b.size := by
      unfold openingMoves at hmem
      fin_cases hmem <;> constructor <;> omega
    rw [show m = (m.1, m.2) from rfl, mem_getEmptyPositions]
    exact ⟨hbound.1, hbound.2, by simpa using hcell⟩

/-- The sort-and-pick stage always selects one of the scored candidates. -/
theorem pickMove_mem (l : List ((Nat × Nat) × ℚ)) (mistake : Bool) (mIdx : Nat)
    (hne : l ≠ []) :
    ∃ m, pickMove (List.insertionSort scoreGe l) mistake mIdx = some m ∧ m ∈ l := by
  have hperm := List.perm_insertionSort scoreGe l
  have hslen : (List.insertionSort scoreGe l).length = l.length := hperm.length_eq
  have hlpos : 0 < l.length := List.length_pos.mpr hne
  unfold pickMove
  rcases mistake with _ | _
  · simp only [Bool.false_eq_true, if_false]
    rcases hh : (List.insertionSort scoreGe l).head? with _ | m
    · rw [List.head?_eq_none_iff] at hh
      rw [hh] at hslen
      simp at hslen
      omega
    · refine ⟨m, rfl, hperm.subset (List.mem_of_mem_head? hh)⟩
  · simp only [if_true]
    set top := (List.insertionSort scoreGe l).take
      (min 5 (List.insertionSort scoreGe l).length) with htopdef
    have htoplen : 0 < top.length := by
      rw [htopdef, List.length_take]
      omega
    rcases hg : top[mIdx % top.length]? with _ | m
    · rw [List.getElem?_eq_none_iff] at hg
      have := Nat.mod_lt mIdx htoplen
      omega
    · refine ⟨m, rfl, ?_⟩
      have hmt : m ∈ top := mem_of_getElemQ hg
      have : m ∈ List.insertionSort scoreGe l := by
        rw [htopdef] at hmt
        exact (List.take_sublist _ _).subset hmt
      exact hperm.subset this

theorem findWinningMove_mem (b : Board) (p : Nat) (m : Nat × Nat)
    (h : findWinningMove b p = some m) : m ∈ getEmptyPositions b :=
  List.mem_of_find?_eq_some h

theorem findAdvancedTacticMove_mem (b : Board) (p : Nat) (m : Nat × Nat)
    (h : findAdvancedTacticMove b p = some m) : m ∈ getEmptyPositions b :=
  List.mem_of_find?_eq_some h

/-- The full-scoring stage of getBestMove always selects one of the empty
cells. -/
theorem scoringStage_mem (b : Board) (score : (Nat × Nat) → ℚ) (mistake : Bool)
    (mIdx : Nat) (hz : (getEmptyPositions b).length ≠ 0) :
    ∃ m, (pickMove (sortedScoredMoves (getEmptyPositions b) score) mistake mIdx).map
        (fun mv => mv.1) = some m ∧ m ∈ getEmptyPositions b := by
  have hne : (getEmptyPositions b).map (fun pos => (pos, score pos)) ≠ [] := by
    intro hc
    rw [List.map_eq_nil_iff] at hc
    rw [hc] at hz
    simp at hz
  obtain ⟨m, hm, hmm⟩ := pickMove_mem _ mistake mIdx hne
  refine ⟨m.1, ?_, ?_⟩
  · unfold sortedScoredMoves
    rw [hm]
    rfl
  · rw [List.mem_map] at hmm
    obtain ⟨pos, hpos, he⟩ := hmm
    rw [← he]
    exact hpos

/-- C10: getBestMove returns none exactly when the board has no empty cell,
and any returned move (opening shortcut, hard-mode win/block/tactic
pre-checks, or full scoring) is an in-bounds, currently empty cell. -/
theorem getBestMove_safe (b : Board) (aiP humanP : Nat) (diff : Difficulty)
    (score : (Nat × Nat) → ℚ) (mistake : Bool) (mIdx openIdx : Nat) :
    (getBestMove b aiP humanP diff score mistake mIdx openIdx = none ↔
      getEmptyPositions b = []) ∧
    (∀ pos : Nat × Nat,
      getBestMove b aiP humanP diff score mistake mIdx openIdx = some pos →
      pos.1 < b.size ∧ pos.2 < b.size ∧ b.cell pos.1 pos.2 = 0) := by
  have hmem_empty : ∀ pos : Nat × Nat, pos ∈ getEmptyPositions b →
      pos.1 < b.size ∧ pos.2 < b.size ∧ b.cell pos.1 pos.2 = 0 := by
    intro pos h
    exact (mem_getEmptyPositions b pos.1 pos.2).mp (by simpa using h)
  by_cases hz : (getEmptyPositions b).length = 0
  · have hnil : getEmptyPositions b = [] := List.length_eq_zero.mp hz
    constructor
    · simp [getBestMove, hz, hnil]
    · intro pos hpos
      simp [getBestMove, hz] at hpos
  · have hsome : ∃ m, getBestMove b aiP humanP diff score mistake mIdx openIdx = some m ∧
        m ∈ getEmptyPositions b := by
      unfold getBestMove
      simp only [hz, if_false]
      by_cases h220 : 220 ≤ (getEmptyPositions b).length
      · rw [if_pos h220]
        exact getOpeningMove_spec b openIdx h220
      · rw [if_neg h220]
        rcases hdiff : diff with _ | _ | _
        · simp only [show (Difficulty.easy = Difficulty.hard) = False by simp,
            if_false]
          exact scoringStage_mem b score mistake mIdx hz
        · simp only [show (Difficulty.normal = Difficulty.hard) = False by simp,
            if_false]
          exact scoringStage_mem b score mistake mIdx hz
        · simp only [if_pos rfl]
          rcases h1 : findWinningMove b aiP with _ | m1
          · rcases h2 : findWinningMove b humanP with _ | m2
            · rcases h3 : findAdvancedTacticMove b aiP with _ | m3
              · simp only
                exact scoringStage_mem b score mistake mIdx hz
              · exact ⟨m3, rfl, findAdvancedTacticMove_mem b aiP m3 h3⟩
            · exact ⟨m2, rfl, findWinningMove_mem b humanP m2 h2⟩
          · exact ⟨m1, rfl, findWinningMove_mem b aiP m1 h1⟩
    obtain ⟨m, hm, hmem⟩ := hsome
    constructor
    · rw [hm]
      constructor
      · intro hc
        cases hc
      · intro hc
        rw [hc] at hz
        simp at hz
    · intro pos hpos
      rw [hm] at hpos
      have : m = pos := by
        injection hpos
      rw [← this]
      exact hmem_empty m hmem

/-- Witness for C10 at a concrete board and parameter set. -/
theorem getBestMove_safe_witness :
    (0 : Nat) < wbOne.size ∧ (1 : Nat) < wbOne.size ∧ wbOne.cell 0 1 = 0 :=
  (getBestMove_safe wbOne 2 1 Difficulty.normal (fun _ => 0) false 0 0).2
    (0, 1) (by decide)

/-! ## C2: WinChecker.checkWin -/

/-- Soundness of the walk: every step within the returned count is an
in-bounds own stone. -/
theorem countRun_sound (b : Board) (p : Nat) (dx dy : Int) :
    ∀ (fuel : Nat) (x y : Int) (i : Nat), 1 ≤ i →
      i ≤ countRun b p dx dy x y fuel →
      stoneAt b p (x + dx * (i : Int)) (y + dy * (i : Int)) = true := by
  intro fuel
  induction fuel with
  | zero =>
    intro x y i h1 h2
    rw [countRun] at h2
    omega
  | succ k ih =>
    intro x y i h1 h2
    rw [countRun] at h2
    split_ifs at h2 with hc
    · rcases Nat.lt_or_ge i 2 with hi | hi
      · have hi1 : i = 1 := by omega
        subst hi1
        unfold stoneAt
        simp only [Nat.cast_one, mul_one]
        simp [hc.1, hc.2]
      · have ih2 := ih (x + dx) (y + dy) (i - 1) (by omega) (by omega)
        have hcast : ((i - 1 : Nat) : Int) = (i : Int) - 1 := by
          rw [Nat.cast_sub h1, Nat.cast_one]
        rw [hcast] at ih2
        have harg1 : x + dx + dx * ((i : Int) - 1) = x + dx * (i : Int) := by ring
        have harg2 : y + dy + dy * ((i : Int) - 1) = y + dy * (i : Int) := by ring
        rw [harg1, harg2] at ih2
        exact ih2
    · omega

/-- Completeness of the walk: if the first `m` steps are all own stones, the
count reaches `m` (up to the fuel). -/
theorem countRun_complete (b : Board) (p : Nat) (dx dy : Int) :
    ∀ (fuel : Nat) (x y : Int) (m : Nat),
      (∀ i : Nat, 1 ≤ i → i ≤ m →
        stoneAt b p (x + dx * (i : Int)) (y + dy * (i : Int)) = true) →
      min m fuel ≤ countRun b p dx dy x y fuel := by
  intro fuel
  induction fuel with
  | zero =>
    intro x y m h
    simp
  | succ k ih =>
    intro x y m h
    rcases Nat.eq_zero_or_pos m with rfl | hm
    · simp
    · have h1 := h 1 le_rfl hm
      unfold stoneAt at h1
      simp only [Nat.cast_one, mul_one] at h1
      rw [Bool.and_eq_true, decide_eq_true_eq, decide_eq_true_eq] at h1
      rw [countRun, if_pos (And.intro h1.1 h1.2)]
      have hsh : ∀ i : Nat, 1 ≤ i → i ≤ m - 1 →
          stoneAt b p (x + dx + dx * (i : Int)) (y + dy + dy * (i : Int)) = true := by
        intro i hi1 hi2
        have hstep := h (i + 1) (by omega) (by omega)
        have harg1 : x + dx * ((i + 1 : Nat) : Int) = x + dx + dx * (i : Int) := by
          push_cast
          ring
        have harg2 : y + dy * ((i + 1 : Nat) : Int) = y + dy + dy * (i : Int) := by
          push_cast
          ring
        rw [harg1, harg2] at hstep
        exact hstep
      have hrec := ih (x + dx) (y + dy) (m - 1) hsh
      omega

/-- A full window of five valid cells along one of the four directions
forces the board size above 4. -/
theorem window_bound (b : Board) (p : Nat) (x y : Int) (d : Int × Int)
    (hd : d ∈ directions) (a : Nat)
    (h0 : stoneAt b p (x + d.1 * (0 - (a : Int))) (y + d.2 * (0 - (a : Int))) = true)
    (h4 : stoneAt b p (x + d.1 * (4 - (a : Int))) (y + d.2 * (4 - (a : Int))) = true) :
    4 < b.size := by
  fin_cases hd <;>
  · unfold stoneAt isValidPos at h0 h4
    simp only [Bool.and_eq_true, decide_eq_true_eq] at h0 h4
    omega

/-- Per-direction agreement: checkDirection fires exactly when some window
of 5 consecutive cells through the centre along that direction is all own
stones. -/
theorem checkDirection_iff (b : Board) (p : Nat) (x y : Int) (d : Int × Int)
    (hd : d ∈ directions) (hx : isValidPos b x y) (hc : cellAt b x y = p) :
    checkDirection b x y d.1 d.2 p = true ↔
      ((List.range 5).any fun a =>
        (List.range 5).all fun j =>
          stoneAt b p (x + d.1 * ((j : Int) - (a : Int)))
            (y + d.2 * ((j : Int) - (a : Int)))) = true := by
  unfold checkDirection
  rw [decide_eq_true_iff]
  constructor
  · intro h
    set P := countRun b p d.1 d.2 x y b.size with hP
    set N := countRun b p (-d.1) (-d.2) x y b.size with hN
    rw [List.any_eq_true]
    refine ⟨4 - min P 4, List.mem_range.mpr (by omega), ?_⟩
    rw [List.all_eq_true]
    intro j hj
    rw [List.mem_range] at hj
    set a := 4 - min P 4 with hadef
    rcases Nat.lt_trichotomy j a with hlt | heq | hgt
    · have harg : (j : Int) - (a : Int) = -(((a - j : Nat) : Int)) := by omega
      rw [harg]
      have e1 : x + d.1 * -(((a - j : Nat) : Int)) = x + -d.1 * ((a - j : Nat) : Int) := by
        ring
      have e2 : y + d.2 * -(((a - j : Nat) : Int)) = y + -d.2 * ((a - j : Nat) : Int) := by
        ring
      rw [e1, e2]
      exact countRun_sound b p (-d.1) (-d.2) b.size x y (a - j) (by omega) (by omega)
    · have harg : (j : Int) - (a : Int) = 0 := by omega
      rw [harg]
      simp only [mul_zero, add_zero]
      unfold stoneAt
      simp [hx, hc]
    · have harg : (j : Int) - (a : Int) = ((j - a : Nat) : Int) := by omega
      rw [harg]
      exact countRun_sound b p d.1 d.2 b.size x y (j - a) (by omega) (by omega)
  · intro h
    rw [List.any_eq_true] at h
    obtain ⟨a, ha5, hall⟩ := h
    rw [List.mem_range] at ha5
    rw [List.all_eq_true] at hall
    have h0 := hall 0 (List.mem_range.mpr (by omega))
    have h4 := hall 4 (List.mem_range.mpr (by omega))
    simp only [Nat.cast_zero] at h0
    simp only [Nat.cast_ofNat] at h4
    have hn : 4 < b.size := window_bound b p x y d hd a h0 h4
    have hstepF : ∀ i : Nat, 1 ≤ i → i ≤ 4 - a →
        stoneAt b p (x + d.1 * (i : Int)) (y + d.2 * (i : Int)) = true := by
      intro i hi1 hi2
      have hw := hall (a + i) (List.mem_range.mpr (by omega))
      have harg : ((a + i : Nat) : Int) - (a : Int) = (i : Int) := by
        push_cast
        ring
      rw [harg] at hw
      exact hw
    have hstepB : ∀ i : Nat, 1 ≤ i → i ≤ a →
        stoneAt b p (x + -d.1 * (i : Int)) (y + -d.2 * (i : Int)) = true := by
      intro i hi1 hi2
      have hw := hall (a - i) (List.mem_range.mpr (by omega))
      have harg : ((a - i : Nat) : Int) - (a : Int) = -((i : Nat) : Int) := by omega
      rw [harg] at hw
      have e1 : x + d.1 * -(((i : Nat)) : Int) = x + -d.1 * ((i : Nat) : Int) := by ring
      have e2 : y + d.2 * -(((i : Nat)) : Int) = y + -d.2 * ((i : Nat) : Int) := by ring
      rw [e1, e2] at hw
      exact hw
    have hF := countRun_complete b p d.1 d.2 b.size x y (4 - a) hstepF
    have hB := countRun_complete b p (-d.1) (-d.2) b.size x y a hstepB
    omega

/-- The fuel passed to the modelled `while` walk is never exhausted: from a
valid centre, a run along any of the four directions (either arm) is shorter
than the board size, so the fuelled walk agrees with the source's unbounded
loop. -/
theorem countRun_lt_fuel (b : Board) (p : Nat) (x y : Int) (d : Int × Int)
    (hd : d ∈ directions) (hx : isValidPos b x y) :
    countRun b p d.1 d.2 x y b.size < b.size ∧
    countRun b p (-d.1) (-d.2) x y b.size < b.size := by
  have hn : 1 ≤ b.size := by
    obtain ⟨h1, h2, -, -⟩ := hx
    omega
  constructor
  · by_contra hge
    push_neg at hge
    have hs := countRun_sound b p d.1 d.2 b.size x y b.size hn (by omega)
    fin_cases hd <;>
    · unfold stoneAt isValidPos at hs
      obtain ⟨h1, h2, h3, h4⟩ := hx
      simp only [Bool.and_eq_true, decide_eq_true_eq] at hs
      omega
  · by_contra hge
    push_neg at hge
    have hs := countRun_sound b p (-d.1) (-d.2) b.size x y b.size hn (by omega)
    fin_cases hd <;>
    · unfold stoneAt isValidPos at hs
      obtain ⟨h1, h2, h3, h4⟩ := hx
      simp only [Bool.and_eq_true, decide_eq_true_eq] at hs
      omega

/-- C2: checkWin returns the placing player exactly when some direction's
contiguous same-player run through the placed cell (the cell included) has
length at least 5, and no winner otherwise.  The run condition is the
specification-side `hasFiveThrough`. -/
theorem checkWin_five_in_row (b : Board) (x y : Int) (p : Nat)
    (hx : isValidPos b x y) (hc : cellAt b x y = p) :
    checkWin b (some (x, y, p)) =
      (if hasFiveThrough b p x y = true then some p else none) := by
  unfold checkWin hasFiveThrough
  refine if_congr ?_ rfl rfl
  rw [List.any_eq_true, List.any_eq_true]
  constructor
  · rintro ⟨d, hd, hcd⟩
    exact ⟨d, hd, (checkDirection_iff b p x y d hd hx hc).mp hcd⟩
  · rintro ⟨d, hd, hcd⟩
    exact ⟨d, hd, (checkDirection_iff b p x y d hd hx hc).mpr hcd⟩

/-- Witness for C2 on the spec's scenario board (stones at (7,0)..(7,4)). -/
theorem checkWin_five_in_row_witness :
    isValidPos wbRow 7 4 ∧ cellAt wbRow 7 4 = 1 ∧
    checkWin wbRow (some (7, 4, 1)) =
      (if hasFiveThrough wbRow 1 7 4 = true then some 1 else none) ∧
    checkWin wbRow (some (7, 4, 1)) = some 1 :=
  ⟨by decide, by decide, checkWin_five_in_row wbRow 7 4 1 (by decide) (by decide),
    by decide⟩

/-! ## C8: analyzeLine -/

theorem stepStone_shift (b : Board) (p : Nat) (x y dx dy : Int) (i : Nat) :
    stepStone b p (x + dx) (y + dy) dx dy i = stepStone b p x y dx dy (i + 1) := by
  unfold stepStone
  have h1 : x + dx + dx * (i : Int) = x + dx * ((i + 1 : Nat) : Int) := by
    push_cast
    ring
  have h2 : y + dy + dy * (i : Int) = y + dy * ((i + 1 : Nat) : Int) := by
    push_cast
    ring
  rw [h1, h2]

theorem stepStone_one (b : Board) (p : Nat) (x y dx dy : Int) :
    stepStone b p x y dx dy 1 = stoneAt b p (x + dx) (y + dy) := by
  unfold stepStone
  have h1 : x + dx * ((1 : Nat) : Int) = x + dx := by push_cast; ring
  have h2 : y + dy * ((1 : Nat) : Int) = y + dy := by push_cast; ring
  rw [h1, h2]

theorem runLen_succ (b : Board) (p : Nat) (x y dx dy : Int) (k : Nat) :
    runLen b p x y dx dy (k + 1) =
      if stepStone b p x y dx dy 1 then runLen b p (x + dx) (y + dy) dx dy k + 1
      else 0 := by
  unfold runLen
  rw [List.range_succ_eq_map, List.takeWhile_cons]
  by_cases h1 : stepStone b p x y dx dy (0 + 1) = true
  · rw [if_pos h1, if_pos (by simpa using h1)]
    rw [List.length_cons]
    rw [List.takeWhile_map, List.length_map]
    have hfun : ((fun i => stepStone b p x y dx dy (i + 1)) ∘ Nat.succ)
        = fun i => stepStone b p (x + dx) (y + dy) dx dy (i + 1) := by
      funext i
      simp only [Function.comp_apply]
      rw [stepStone_shift]
    rw [hfun]
  · rw [if_neg h1, if_neg (by simpa using h1)]
    rfl

theorem runLen_le (b : Board) (p : Nat) (x y dx dy : Int) (k : Nat) :
    runLen b p x y dx dy k ≤ k := by
  unfold runLen
  calc ((List.range k).takeWhile fun i => stepStone b p x y dx dy (i + 1)).length
      ≤ (List.range k).length := (List.takeWhile_sublist _).length_le
    _ = k := List.length_range k

/-- Characterisation of one arm of analyzeLine's loop by the
specification-side run length and open/closed classification. -/
theorem scanDir_char (b : Board) (p : Nat) (dx dy : Int) :
    ∀ (k : Nat) (x y : Int),
      scanDir b p dx dy x y k =
        (runLen b p x y dx dy k,
         stopsClosed b p x y dx dy k,
         if stopsOpen b p x y dx dy k then 1 else 0) := by
  intro k
  induction k with
  | zero =>
    intro x y
    simp [scanDir, runLen, stopsClosed, stopsOpen]
  | succ k ih =>
    intro x y
    have hs1 : stepStone b p x y dx dy 1 = stoneAt b p (x + dx) (y + dy) :=
      stepStone_one b p x y dx dy
    by_cases hv : isValidPos b (x + dx) (y + dy)
    · by_cases hp : cellAt b (x + dx) (y + dy) = p
      · -- own stone: recurse
        have hstep : stepStone b p x y dx dy 1 = true := by
          rw [hs1]
          unfold stoneAt
          simp [hv, hp]
        have hrl : runLen b p x y dx dy (k + 1)
            = runLen b p (x + dx) (y + dy) dx dy k + 1 := by
          rw [runLen_succ, if_pos hstep]
        have hposx : x + dx * (((runLen b p (x + dx) (y + dy) dx dy k + 1 : Nat) : Int) + 1)
            = (x + dx) + dx * (((runLen b p (x + dx) (y + dy) dx dy k : Nat) : Int) + 1) := by
          push_cast
          ring
        have hposy : y + dy * (((runLen b p (x + dx) (y + dy) dx dy k + 1 : Nat) : Int) + 1)
            = (y + dy) + dy * (((runLen b p (x + dx) (y + dy) dx dy k : Nat) : Int) + 1) := by
          push_cast
          ring
        have hcl : stopsClosed b p x y dx dy (k + 1)
            = stopsClosed b p (x + dx) (y + dy) dx dy k := by
          simp only [stopsClosed, hrl, hposx, hposy]
          rw [show decide (runLen b p (x + dx) (y + dy) dx dy k + 1 < k + 1)
              = decide (runLen b p (x + dx) (y + dy) dx dy k < k) from
            decide_eq_decide.mpr (by omega)]
        have hop : stopsOpen b p x y dx dy (k + 1)
            = stopsOpen b p (x + dx) (y + dy) dx dy k := by
          simp only [stopsOpen, hrl, hposx, hposy]
          rw [show decide (runLen b p (x + dx) (y + dy) dx dy k + 1 < k + 1)
              = decide (runLen b p (x + dx) (y + dy) dx dy k < k) from
            decide_eq_decide.mpr (by omega)]
        rw [scanDir]
        rw [if_neg (by simpa using hv)]
        rw [if_pos hp]
        rw [ih (x + dx) (y + dy)]
        rw [hrl, hcl, hop]
      · -- not our stone: empty or opponent
        have hstep : stepStone b p x y dx dy 1 = false := by
          rw [hs1]
          unfold stoneAt
          simp [hp]
        have hrl : runLen b p x y dx dy (k + 1) = 0 := by
          rw [runLen_succ, if_neg (by simp [hstep])]
        have hposx : x + dx * (((0 : Nat) : Int) + 1) = x + dx := by
          push_cast
          ring
        have hposy : y + dy * (((0 : Nat) : Int) + 1) = y + dy := by
          push_cast
          ring
        by_cases h0 : cellAt b (x + dx) (y + dy) = 0
        · have hcl : stopsClosed b p x y dx dy (k + 1) = false := by
            simp only [stopsClosed, hrl, hposx, hposy]
            simp [hv, h0]
          have hop : stopsOpen b p x y dx dy (k + 1) = true := by
            simp only [stopsOpen, hrl, hposx, hposy]
            simp [hv, h0]
          rw [scanDir]
          rw [if_neg (by simpa using hv)]
          rw [if_neg hp, if_pos h0]
          rw [hrl, hcl, hop]
          simp
        · have hcl : stopsClosed b p x y dx dy (k + 1) = true := by
            simp only [stopsClosed, hrl, hposx, hposy]
            simp [hv, h0, hp]
          have hop : stopsOpen b p x y dx dy (k + 1) = false := by
            simp only [stopsOpen, hrl, hposx, hposy]
            simp [h0]
          rw [scanDir]
          rw [if_neg (by simpa using hv)]
          rw [if_neg hp, if_neg h0]
          rw [hrl, hcl, hop]
          simp
    · -- off the board: blocked
      have hrl : runLen b p x y dx dy (k + 1) = 0 := by
        rw [runLen_succ]
        rw [if_neg (by
          rw [stepStone_one]
          unfold stoneAt
          simp [hv])]
      have hposx : x + dx * (((0 : Nat) : Int) + 1) = x + dx := by
        push_cast
        ring
      have hposy : y + dy * (((0 : Nat) : Int) + 1) = y + dy := by
        push_cast
        ring
      have hcl : stopsClosed b p x y dx dy (k + 1) = true := by
        simp only [stopsClosed, hrl, hposx, hposy]
        simp [hv]
      have hop : stopsOpen b p x y dx dy (k + 1) = false := by
        simp only [stopsOpen, hrl, hposx, hposy]
        simp [hv]
      rw [scanDir]
      rw [if_pos (by simpa using hv)]
      rw [hrl, hcl, hop]
      simp

/-- C8: analyzeLine walks at most 4 steps each way (the run lengths are at
most 4); a direction counts as open exactly when its walk stops early on an
in-bounds empty cell and as closed exactly when it stops early on an
opponent stone or the board edge; the count is 1 plus the contiguous
same-player stones found before termination in the two directions; and
canWin holds exactly when that count reaches 5, independent of the
open/closed flags. -/
theorem analyzeLine_spec (b : Board) (x y dx dy : Int) (p : Nat) :
    analyzeLine b x y dx dy p =
      { count := 1 + runLen b p x y dx dy 4 + runLen b p x y (-dx) (-dy) 4
        blocked := (if stopsClosed b p x y dx dy 4 then 1 else 0) +
          (if stopsClosed b p x y (-dx) (-dy) 4 then 1 else 0)
        spaces := (if stopsOpen b p x y dx dy 4 then 1 else 0) +
          (if stopsOpen b p x y (-dx) (-dy) 4 then 1 else 0)
        canWin := decide (5 ≤
          1 + runLen b p x y dx dy 4 + runLen b p x y (-dx) (-dy) 4) } ∧
    runLen b p x y dx dy 4 ≤ 4 ∧ runLen b p x y (-dx) (-dy) 4 ≤ 4 := by
  refine ⟨?_, runLen_le b p x y dx dy 4, runLen_le b p x y (-dx) (-dy) 4⟩
  unfold analyzeLine
  rw [scanDir_char b p dx dy 4 x y, scanDir_char b p (-dx) (-dy) 4 x y]
